import Mathlib

/-!
# Verification of the RamOptimise tab archiver against its specification

This file is a shallow embedding, in Lean 4, of the idle-tab archival
pipeline implemented in `tab_archiver_working.py` (with the variant
`safe_filename` of `Debug_tag.py` differing only in its default maximum
length, which is an explicit argument here).

Modelling conventions:

* Python strings are modelled as `List Char`.  The Python regex classes
  `\w` and `\s` are Unicode-aware; here they are modelled by their ASCII
  cores (`Char.isAlphanum`/underscore, `Char.isWhitespace`), which is the
  standard shallow-embedding approximation and is consistent across all
  uses.  `max_length` is modelled as a `Nat` (the script only ever calls
  the sanitizer with 80, 70 and 30).
* Timestamps (`datetime` values) are modelled as integers with their
  order; `cutoff = now - days_idle` uses integer subtraction.
* The external world (DevTools endpoint, history database, Playwright
  renderer, filesystem of the per-day output directory) is an explicit
  environment `Env` of oracles, and the observable side effects of a run
  are collected in an event trace (`Event`).  A render attempt is one
  body of the `for attempt in range(...)` loop of `snap_and_close_tab`;
  its success means the snapshot PDF was produced.
-/

namespace TabArchiver

/-! ## Character classes used by `safe_filename` (tab_archiver_working.py:70-80) -/

/-- The Windows-reserved characters replaced by `_` in
`re.sub(r'[<>:"/\\|?*]', '_', text)`. -/
def isReservedChar (c : Char) : Bool :=
  c = '<' || c = '>' || c = ':' || c = '"' || c = '/' || c = '\\' ||
    c = '|' || c = '?' || c = '*'

/-- Python regex `\w` (ASCII core): letters, digits and underscore. -/
def isWordChar (c : Char) : Bool :=
  c.isAlphanum || c = '_'

/-- Python regex `\s` (ASCII core). -/
def isSpaceChar (c : Char) : Bool :=
  c.isWhitespace

/-- The class kept by `re.sub(r'[^\w\s.-]', '', safe)`: word characters,
whitespace, dot and hyphen. -/
def isKeepChar (c : Char) : Bool :=
  isWordChar c || isSpaceChar c || c = '.' || c = '-'

/-! ## The `safe_filename` pipeline -/

/-- `re.sub(r'\s+', ' ', safe)`: every maximal run of whitespace becomes a
single space. -/
def collapseSpaces : List Char → List Char
  | [] => []
  | [a] => if isSpaceChar a then [' '] else [a]
  | a :: b :: t =>
    if isSpaceChar a then
      if isSpaceChar b then collapseSpaces (b :: t)
      else ' ' :: collapseSpaces (b :: t)
    else a :: collapseSpaces (b :: t)

/-- Python `str.strip()`: remove leading and trailing whitespace. -/
def pyStrip (l : List Char) : List Char :=
  ((l.dropWhile isSpaceChar).reverse.dropWhile isSpaceChar).reverse

/-- Python `s.rsplit(' ', 1)[0]`: everything before the last space of `s`,
or `s` itself when it has no space. -/
def rsplitSpaceHead (l : List Char) : List Char :=
  match l.reverse.dropWhile (fun c => c ≠ ' ') with
  | [] => l
  | _ :: rest => rest.reverse

/-- `safe_filename` (tab_archiver_working.py:70-80): replace reserved
characters by `_`, delete everything outside `[\w\s.-]`, collapse
whitespace and strip, truncate to `max_length` at a word boundary, and
fall back to `"untitled"` when nothing is left. -/
def safe_filename (text : List Char) (maxLength : Nat) : List Char :=
  let s1 := text.map fun c => if isReservedChar c then '_' else c
  let s2 := s1.filter isKeepChar
  let s3 := pyStrip (collapseSpaces s2)
  let s4 := if maxLength < s3.length then rsplitSpaceHead (s3.take maxLength) else s3
  if s4.isEmpty then "untitled".toList else s4

example : safe_filename "My <Great> Page: notes?".toList 80
    = "My _Great_ Page_ notes_".toList := by decide

example : safe_filename "a\t\t b!!".toList 80 = "a b".toList := by decide

example : safe_filename "".toList 5 = "untitled".toList := by decide

example : safe_filename "hello world again".toList 13 = "hello world".toList := by decide

example : safe_filename "hello world again".toList 8 = "hello".toList := by decide

example : safe_filename (safe_filename "".toList 3) 3 = "unt".toList := by decide

/-! ## Invariants of the sanitized strings -/

/-- The shape of every string produced by the sanitizing pipeline: only kept
characters, the only whitespace is `' '`, no two adjacent spaces, and no
leading or trailing whitespace. -/
structure CleanStr (l : List Char) : Prop where
  keep : ∀ c ∈ l, isKeepChar c = true
  ws : ∀ c ∈ l, isSpaceChar c = true → c = ' '
  nodbl : l.Chain' fun a b => ¬(a = ' ' ∧ b = ' ')
  headok : ∀ c ∈ l.head?, isSpaceChar c = false
  lastok : ∀ c ∈ l.getLast?, isSpaceChar c = false

theorem keep_of_reserved_false {c : Char} (h : isKeepChar c = true) :
    isReservedChar c = false := by
  by_contra hr
  have hr' : isReservedChar c = true := by
    cases hcr : isReservedChar c
    · exact absurd hcr hr
    · rfl
  have hmem : (((((((c = '<' ∨ c = '>') ∨ c = ':') ∨ c = '"') ∨ c = '/') ∨ c = '\\') ∨
      c = '|') ∨ c = '?') ∨ c = '*' := by
    simpa [isReservedChar] using hr'
  rcases hmem with ⟨⟨⟨⟨⟨⟨⟨h1 | h1⟩ | h1⟩ | h1⟩ | h1⟩ | h1⟩ | h1⟩ | h1⟩ | h1 <;> subst h1 <;>
    exact absurd h (by decide)

theorem mem_collapseSpaces : ∀ (l : List Char) (c : Char),
    c ∈ collapseSpaces l → c = ' ' ∨ c ∈ l
  | [], c, h => by simp [collapseSpaces] at h
  | [a], c, h => by
    by_cases ha : isSpaceChar a = true
    · rw [collapseSpaces, if_pos ha] at h
      exact Or.inl (List.mem_singleton.mp h)
    · rw [collapseSpaces, if_neg ha] at h
      exact Or.inr h
  | a :: b :: t, c, h => by
    by_cases ha : isSpaceChar a = true
    · by_cases hb : isSpaceChar b = true
      · rw [collapseSpaces, if_pos ha, if_pos hb] at h
        rcases mem_collapseSpaces (b :: t) c h with hx | hx
        · exact Or.inl hx
        · exact Or.inr (List.mem_cons_of_mem a hx)
      · rw [collapseSpaces, if_pos ha, if_neg hb] at h
        rcases List.mem_cons.mp h with hx | hx
        · exact Or.inl hx
        · rcases mem_collapseSpaces (b :: t) c hx with hy | hy
          · exact Or.inl hy
          · exact Or.inr (List.mem_cons_of_mem a hy)
    · rw [collapseSpaces, if_neg ha] at h
      rcases List.mem_cons.mp h with hx | hx
      · exact Or.inr (by simp [hx])
      · rcases mem_collapseSpaces (b :: t) c hx with hy | hy
        · exact Or.inl hy
        · exact Or.inr (List.mem_cons_of_mem a hy)

theorem ws_collapseSpaces : ∀ (l : List Char) (c : Char),
    c ∈ collapseSpaces l → isSpaceChar c = true → c = ' '
  | [], c, h, _ => by simp [collapseSpaces] at h
  | [a], c, h, hc => by
    by_cases ha : isSpaceChar a = true
    · rw [collapseSpaces, if_pos ha] at h
      exact List.mem_singleton.mp h
    · rw [collapseSpaces, if_neg ha] at h
      exact absurd ((List.mem_singleton.mp h) ▸ hc) ha
  | a :: b :: t, c, h, hc => by
    by_cases ha : isSpaceChar a = true
    · by_cases hb : isSpaceChar b = true
      · rw [collapseSpaces, if_pos ha, if_pos hb] at h
        exact ws_collapseSpaces (b :: t) c h hc
      · rw [collapseSpaces, if_pos ha, if_neg hb] at h
        rcases List.mem_cons.mp h with hx | hx
        · exact hx
        · exact ws_collapseSpaces (b :: t) c hx hc
    · rw [collapseSpaces, if_neg ha] at h
      rcases List.mem_cons.mp h with hx | hx
      · exact absurd (hx ▸ hc) ha
      · exact ws_collapseSpaces (b :: t) c hx hc

theorem head?_collapseSpaces : ∀ (l : List Char),
    (collapseSpaces l).head? = l.head?.map fun c => if isSpaceChar c = true then ' ' else c
  | [] => rfl
  | [a] => by
    by_cases ha : isSpaceChar a = true
    · rw [collapseSpaces, if_pos ha]
      simp [ha]
    · rw [collapseSpaces, if_neg ha]
      simp [ha]
  | a :: b :: t => by
    by_cases ha : isSpaceChar a = true
    · by_cases hb : isSpaceChar b = true
      · rw [collapseSpaces, if_pos ha, if_pos hb, head?_collapseSpaces (b :: t)]
        simp [ha, hb]
      · rw [collapseSpaces, if_pos ha, if_neg hb]
        simp [ha]
    · rw [collapseSpaces, if_neg ha]
      simp [ha]

theorem nodbl_collapseSpaces : ∀ (l : List Char),
    (collapseSpaces l).Chain' fun a b => ¬(a = ' ' ∧ b = ' ')
  | [] => List.chain'_nil
  | [a] => by
    by_cases ha : isSpaceChar a = true
    · rw [collapseSpaces, if_pos ha]; simp
    · rw [collapseSpaces, if_neg ha]; simp
  | a :: b :: t => by
    by_cases ha : isSpaceChar a = true
    · by_cases hb : isSpaceChar b = true
      · rw [collapseSpaces, if_pos ha, if_pos hb]
        exact nodbl_collapseSpaces (b :: t)
      · rw [collapseSpaces, if_pos ha, if_neg hb]
        refine List.chain'_cons'.mpr ⟨?_, nodbl_collapseSpaces (b :: t)⟩
        intro y hy
        rw [head?_collapseSpaces (b :: t)] at hy
        simp only [List.head?_cons, Option.map_some', Option.mem_def,
          Option.some.injEq] at hy
        rw [if_neg hb] at hy
        rintro ⟨-, hy'⟩
        subst hy
        exact hb (by rw [hy']; decide)
    · rw [collapseSpaces, if_neg ha]
      refine List.chain'_cons'.mpr ⟨?_, nodbl_collapseSpaces (b :: t)⟩
      intro y _
      rintro ⟨ha', -⟩
      subst ha'
      exact ha (by decide)

theorem keep_collapseSpaces (l : List Char) (hl : ∀ c ∈ l, isKeepChar c = true) :
    ∀ c ∈ collapseSpaces l, isKeepChar c = true := by
  intro c hc
  rcases mem_collapseSpaces l c hc with h | h
  · subst h; decide
  · exact hl c h

theorem head?_dropWhile_false (p : Char → Bool) (l : List Char) :
    ∀ c ∈ (l.dropWhile p).head?, p c = false := by
  intro c hc
  match h : l.dropWhile p with
  | [] => rw [h] at hc; simp at hc
  | c0 :: rest =>
    rw [h] at hc
    simp only [List.head?_cons, Option.mem_def, Option.some.injEq] at hc
    subst hc
    have := List.head?_dropWhile_not p l
    rw [h] at this
    simpa using this

theorem pyStrip_prefix_dropWhile (l : List Char) :
    pyStrip l <+: l.dropWhile isSpaceChar := by
  have h := List.reverse_prefix.mpr
    (List.dropWhile_suffix (l := (l.dropWhile isSpaceChar).reverse) isSpaceChar)
  rw [List.reverse_reverse] at h
  exact h

theorem pyStrip_infix_self (l : List Char) : pyStrip l <:+: l :=
  (pyStrip_prefix_dropWhile l).isInfix.trans (List.dropWhile_suffix _).isInfix

theorem pyStrip_head (l : List Char) : ∀ c ∈ (pyStrip l).head?, isSpaceChar c = false := by
  intro c hc
  rcases pyStrip_prefix_dropWhile l with ⟨t, ht⟩
  have hne : pyStrip l ≠ [] := by
    intro h
    rw [h] at hc
    simp at hc
  have : (l.dropWhile isSpaceChar).head? = some c := by
    rw [← ht]
    match hps : pyStrip l with
    | [] => exact absurd hps hne
    | a :: r =>
      rw [hps] at hc
      simp only [List.head?_cons, Option.mem_def, Option.some.injEq] at hc
      simp [hc]
  exact head?_dropWhile_false isSpaceChar l c this

theorem pyStrip_last (l : List Char) : ∀ c ∈ (pyStrip l).getLast?, isSpaceChar c = false := by
  intro c hc
  rw [← List.head?_reverse] at hc
  unfold pyStrip at hc
  rw [List.reverse_reverse] at hc
  exact head?_dropWhile_false isSpaceChar _ c hc

theorem mem_of_head?_eq {l : List Char} {c : Char} (h : l.head? = some c) : c ∈ l := by
  cases l with
  | nil => simp at h
  | cons a t =>
    simp only [List.head?_cons, Option.some.injEq] at h
    simp [h]

theorem mem_of_getLast?_eq {l : List Char} {c : Char} (h : l.getLast? = some c) : c ∈ l := by
  rw [← List.head?_reverse] at h
  have := mem_of_head?_eq h
  simpa using this

theorem head?_of_prefix {l₁ l₂ : List Char} (h : l₁ <+: l₂) (hne : l₁ ≠ []) :
    l₂.head? = l₁.head? := by
  rcases h with ⟨t, rfl⟩
  cases l₁ with
  | nil => exact absurd rfl hne
  | cons a r => rfl

theorem head?_take_of_ne_zero (l : List Char) (m : Nat) (hm : m ≠ 0) :
    (l.take m).head? = l.head? := by
  cases l with
  | nil => simp
  | cons a t =>
    cases m with
    | zero => exact absurd rfl hm
    | succ k => rfl

/-- The two outcomes of `s.rsplit(' ', 1)[0]`: either `s` has no space and is
returned whole, or the result is the part before the last space. -/
theorem rsplitSpaceHead_cases (x : List Char) :
    (rsplitSpaceHead x = x ∧ ∀ c ∈ x, c ≠ ' ') ∨
    ∃ t, x = rsplitSpaceHead x ++ ' ' :: t := by
  match hd : x.reverse.dropWhile (fun c => c ≠ ' ') with
  | [] =>
    refine Or.inl ⟨by simp only [rsplitSpaceHead, hd], ?_⟩
    intro c hc
    have hall := List.dropWhile_eq_nil_iff.mp hd
    have := hall c (by simpa using hc)
    simpa using this
  | c0 :: rest =>
    have hc0 : c0 = ' ' := by
      have := head?_dropWhile_false (fun c => c ≠ ' ') x.reverse c0 (by rw [hd]; rfl)
      simpa using this
    subst hc0
    have hsplit := List.takeWhile_append_dropWhile (fun c => (c ≠ ' ' : Bool)) x.reverse
    rw [hd] at hsplit
    refine Or.inr ⟨(x.reverse.takeWhile fun c => (c ≠ ' ' : Bool)).reverse, ?_⟩
    have hres : rsplitSpaceHead x = rest.reverse := by simp only [rsplitSpaceHead, hd]
    rw [hres]
    calc x = x.reverse.reverse := (List.reverse_reverse x).symm
    _ = ((x.reverse.takeWhile fun c => (c ≠ ' ' : Bool)) ++ ' ' :: rest).reverse := by
        rw [hsplit]
    _ = rest.reverse ++ ' ' :: (x.reverse.takeWhile fun c => (c ≠ ' ' : Bool)).reverse := by
        rw [List.reverse_append]
        simp

theorem rsplitSpaceHead_length_le (x : List Char) :
    (rsplitSpaceHead x).length ≤ x.length := by
  rcases rsplitSpaceHead_cases x with ⟨heq, -⟩ | ⟨t, ht⟩
  · rw [heq]
  · conv_rhs => rw [ht]
    rw [List.length_append, List.length_cons]
    omega

theorem rsplitSpaceHead_prefix (x : List Char) : rsplitSpaceHead x <+: x := by
  rcases rsplitSpaceHead_cases x with ⟨heq, -⟩ | ⟨t, ht⟩
  · rw [heq]
  · exact ⟨' ' :: t, ht.symm⟩

/-- The first three stages of `safe_filename` produce a `CleanStr`. -/
theorem sanitize_clean (l : List Char) :
    CleanStr (pyStrip (collapseSpaces (l.filter isKeepChar))) := by
  set s2 := l.filter isKeepChar with hs2
  have hkeep2 : ∀ c ∈ s2, isKeepChar c = true := fun c hc => (List.mem_filter.mp hc).2
  refine ⟨?_, ?_, ?_, pyStrip_head _, pyStrip_last _⟩
  · intro c hc
    exact keep_collapseSpaces s2 hkeep2 c ((pyStrip_infix_self _).subset hc)
  · intro c hc hws
    exact ws_collapseSpaces s2 c ((pyStrip_infix_self _).subset hc) hws
  · exact List.Chain'.infix (nodbl_collapseSpaces s2) (pyStrip_infix_self _)

theorem nodbl_of_no_space : ∀ (l : List Char), (∀ c ∈ l, c ≠ ' ') →
    l.Chain' fun a b => ¬(a = ' ' ∧ b = ' ')
  | [], _ => List.chain'_nil
  | [a], _ => List.chain'_singleton a
  | a :: b :: t, h =>
    List.chain'_cons.mpr
      ⟨fun hab => h a (by simp) hab.1,
       nodbl_of_no_space (b :: t) fun c hc => h c (List.mem_cons_of_mem a hc)⟩

/-- Truncating a `CleanStr` to `m ≠ 0` characters and cutting at the last
space again yields a `CleanStr` (provided the cut leaves something). -/
theorem clean_truncate (s : List Char) (m : Nat) (hC : CleanStr s)
    (hne : rsplitSpaceHead (s.take m) ≠ []) :
    CleanStr (rsplitSpaceHead (s.take m)) := by
  set x := s.take m with hx
  have hm : m ≠ 0 := by
    intro h
    apply hne
    rw [hx, h, List.take_zero]
    rfl
  have hxpre : x <+: s := List.take_prefix m s
  have hkeepx : ∀ c ∈ x, isKeepChar c = true := fun c hc => hC.keep c (hxpre.subset hc)
  have hwsx : ∀ c ∈ x, isSpaceChar c = true → c = ' ' :=
    fun c hc h => hC.ws c (hxpre.subset hc) h
  have hnodblx : x.Chain' fun a b => ¬(a = ' ' ∧ b = ' ') := hC.nodbl.prefix hxpre
  have hheadx : ∀ c ∈ x.head?, isSpaceChar c = false := by
    rw [hx, head?_take_of_ne_zero s m hm]
    exact hC.headok
  have hrpre : rsplitSpaceHead x <+: x := rsplitSpaceHead_prefix x
  refine ⟨fun c hc => hkeepx c (hrpre.subset hc),
          fun c hc h => hwsx c (hrpre.subset hc) h,
          hnodblx.prefix hrpre, ?_, ?_⟩
  · rw [← head?_of_prefix hrpre hne]
    exact hheadx
  · rcases rsplitSpaceHead_cases x with ⟨heq, hnsp⟩ | ⟨t, ht⟩
    · rw [heq]
      intro c hc
      by_contra hcs
      have hcs' : isSpaceChar c = true := by
        cases h : isSpaceChar c
        · exact absurd h hcs
        · rfl
      exact hnsp c (mem_of_getLast?_eq hc) (hwsx c (mem_of_getLast?_eq hc) hcs')
    · intro c hc
      have hch := hnodblx
      rw [ht] at hch
      have hjunction := (List.chain'_append.mp hch).2.2
      have hcne : c ≠ ' ' := by
        intro hcsp
        exact hjunction c hc ' ' rfl ⟨hcsp, rfl⟩
      by_contra hcs
      have hcs' : isSpaceChar c = true := by
        cases h : isSpaceChar c
        · exact absurd h hcs
        · rfl
      have hcx : c ∈ x := hrpre.subset (mem_of_getLast?_eq hc)
      exact hcne (hwsx c hcx hcs')

theorem untitled_clean : CleanStr ("untitled".toList) := by
  refine ⟨by decide, by decide, ?_, by decide, by decide⟩
  exact nodbl_of_no_space _ (by decide)

/-- The last two stages of `safe_filename` (truncation and fallback),
stated for an arbitrary clean intermediate string. -/
theorem clean_stage (s3 : List Char) (m : Nat) (h3 : CleanStr s3) :
    CleanStr (if (if m < s3.length then rsplitSpaceHead (s3.take m) else s3).isEmpty = true
      then "untitled".toList
      else if m < s3.length then rsplitSpaceHead (s3.take m) else s3) := by
  set s4 := if m < s3.length then rsplitSpaceHead (s3.take m) else s3 with hs4
  by_cases hemp : s4.isEmpty = true
  · rw [if_pos hemp]
    exact untitled_clean
  · rw [if_neg hemp]
    have hne : s4 ≠ [] := by
      intro h
      rw [h] at hemp
      exact hemp rfl
    rw [hs4]
    by_cases htr : m < s3.length
    · rw [if_pos htr]
      refine clean_truncate s3 m h3 ?_
      intro h
      apply hne
      rw [hs4, if_pos htr, h]
    · rw [if_neg htr]
      exact h3

/-- Every output of `safe_filename` is a `CleanStr`. -/
theorem safe_filename_clean (text : List Char) (m : Nat) :
    CleanStr (safe_filename text m) :=
  clean_stage _ m (sanitize_clean _)

theorem last_stage_ne_nil (s3 : List Char) (m : Nat) :
    (if (if m < s3.length then rsplitSpaceHead (s3.take m) else s3).isEmpty = true
      then "untitled".toList
      else if m < s3.length then rsplitSpaceHead (s3.take m) else s3) ≠ [] := by
  set s4 := if m < s3.length then rsplitSpaceHead (s3.take m) else s3 with hs4
  by_cases hemp : s4.isEmpty = true
  · rw [if_pos hemp]
    decide
  · rw [if_neg hemp]
    intro h
    rw [h] at hemp
    exact hemp rfl

theorem safe_filename_ne_nil (text : List Char) (m : Nat) : safe_filename text m ≠ [] :=
  last_stage_ne_nil _ m

theorem last_stage_length (s3 : List Char) (m : Nat) :
    (if (if m < s3.length then rsplitSpaceHead (s3.take m) else s3).isEmpty = true
      then "untitled".toList
      else if m < s3.length then rsplitSpaceHead (s3.take m) else s3).length ≤ max m 8 := by
  set s4 := if m < s3.length then rsplitSpaceHead (s3.take m) else s3 with hs4
  have hlen : s4.length ≤ m := by
    rw [hs4]
    by_cases htr : m < s3.length
    · rw [if_pos htr]
      exact le_trans (rsplitSpaceHead_length_le _) (s3.length_take_le m)
    · rw [if_neg htr]
      omega
  by_cases hemp : s4.isEmpty = true
  · rw [if_pos hemp]
    have h8 : ("untitled".toList).length = 8 := by decide
    rw [h8]
    exact le_max_right m 8
  · rw [if_neg hemp]
    exact le_trans hlen (le_max_left m 8)

theorem safe_filename_length (text : List Char) (m : Nat) :
    (safe_filename text m).length ≤ max m 8 :=
  last_stage_length _ m

/-! ## Fixedness of the pipeline on clean strings -/

theorem collapseSpaces_fixed : ∀ (l : List Char),
    (∀ c ∈ l, isSpaceChar c = true → c = ' ') →
    (l.Chain' fun a b => ¬(a = ' ' ∧ b = ' ')) → collapseSpaces l = l
  | [], _, _ => rfl
  | [a], hws, _ => by
    by_cases ha : isSpaceChar a = true
    · rw [collapseSpaces, if_pos ha, hws a (by simp) ha]
    · rw [collapseSpaces, if_neg ha]
  | a :: b :: t, hws, hch => by
    have hch' := List.chain'_cons.mp hch
    have hwst : ∀ c ∈ b :: t, isSpaceChar c = true → c = ' ' :=
      fun c hc h => hws c (List.mem_cons_of_mem a hc) h
    by_cases ha : isSpaceChar a = true
    · have haeq : a = ' ' := hws a (by simp) ha
      by_cases hb : isSpaceChar b = true
      · have hbeq : b = ' ' := hws b (by simp [List.mem_cons]) hb
        exact absurd ⟨haeq, hbeq⟩ hch'.1
      · rw [collapseSpaces, if_pos ha, if_neg hb,
          collapseSpaces_fixed (b :: t) hwst hch'.2, haeq]
    · rw [collapseSpaces, if_neg ha, collapseSpaces_fixed (b :: t) hwst hch'.2]

theorem dropWhile_eq_self_of_head (l : List Char)
    (h : ∀ c ∈ l.head?, isSpaceChar c = false) :
    l.dropWhile isSpaceChar = l := by
  cases l with
  | nil => rfl
  | cons a t =>
    have ha := h a rfl
    simp [List.dropWhile_cons, ha]

theorem pyStrip_fixed (l : List Char)
    (h1 : ∀ c ∈ l.head?, isSpaceChar c = false)
    (h2 : ∀ c ∈ l.getLast?, isSpaceChar c = false) : pyStrip l = l := by
  unfold pyStrip
  rw [dropWhile_eq_self_of_head l h1]
  rw [dropWhile_eq_self_of_head l.reverse (by rw [List.head?_reverse]; exact h2)]
  exact List.reverse_reverse l

/-- `safe_filename` leaves every nonempty `CleanStr` of length at most `m`
unchanged. -/
theorem safe_filename_fixed (o : List Char) (m : Nat) (hC : CleanStr o)
    (hne : o ≠ []) (hlen : o.length ≤ m) : safe_filename o m = o := by
  simp only [safe_filename]
  have h1 : (o.map fun c => if isReservedChar c then '_' else c) = o := by
    have hcong : ∀ c ∈ o, (if isReservedChar c then '_' else c) = c := by
      intro c hc
      rw [if_neg]
      rw [keep_of_reserved_false (hC.keep c hc)]
      simp
    calc (o.map fun c => if isReservedChar c then '_' else c) = o.map id :=
      List.map_congr_left hcong
    _ = o := List.map_id o
  rw [h1, List.filter_eq_self.mpr hC.keep, collapseSpaces_fixed o hC.ws hC.nodbl,
    pyStrip_fixed o hC.headok hC.lastok, if_neg (by omega : ¬ m < o.length)]
  have : o.isEmpty = false := by
    cases o with
    | nil => exact absurd rfl hne
    | cons a t => rfl
  rw [this]
  simp

/-! ## Claim C3 -/

/-- C3 (counterexample): the claim "the output of safe_filename has length at
most the configured maximum" is false as stated: with maximum length 5 the
empty input falls back to "untitled", whose length 8 exceeds 5. -/
theorem safe_filename_length_cap_fails :
    safe_filename [] 5 = "untitled".toList ∧ ¬ (safe_filename [] 5).length ≤ 5 := by
  constructor
  · decide
  · decide

/-- C3 (amended): for every input string and configured maximum length `m`,
the output of `safe_filename` contains no filesystem-reserved character and
is never empty; its length is at most `max m 8` (8 being the length of the
fallback token "untitled"), hence at most `m` whenever `m ≥ 8`. -/
theorem safe_filename_sanitizes (text : List Char) (m : Nat) :
    (∀ c ∈ safe_filename text m, isReservedChar c = false) ∧
    safe_filename text m ≠ [] ∧
    (safe_filename text m).length ≤ max m 8 :=
  ⟨fun c hc => keep_of_reserved_false ((safe_filename_clean text m).keep c hc),
   safe_filename_ne_nil text m,
   safe_filename_length text m⟩

/-! ## Claim C10 -/

/-- C10 (counterexample): `safe_filename` is not idempotent for every maximum
length: with maximum length 3, the empty string maps to "untitled", which in
turn maps to "unt". -/
theorem safe_filename_not_idempotent :
    safe_filename (safe_filename [] 3) 3 ≠ safe_filename [] 3 := by decide

/-- C10 (amended): `safe_filename` is idempotent whenever the configured
maximum length is at least 8, the length of the fallback token "untitled"
(the script only uses maxima 80, 70 and 30). -/
theorem safe_filename_idempotent (s : List Char) (m : Nat) (h : 8 ≤ m) :
    safe_filename (safe_filename s m) m = safe_filename s m :=
  safe_filename_fixed (safe_filename s m) m (safe_filename_clean s m)
    (safe_filename_ne_nil s m)
    (le_trans (safe_filename_length s m) (by omega : max m 8 ≤ m))

/-- C10 witness: the amended idempotence theorem applied at a concrete title
and the script's configured maximum length 80. -/
theorem safe_filename_idempotent_witness :
    8 ≤ 80 ∧ safe_filename (safe_filename ("My Page: notes".toList) 80) 80
      = safe_filename ("My Page: notes".toList) 80 :=
  ⟨by decide, safe_filename_idempotent ("My Page: notes".toList) 80 (by decide)⟩

/-! ## Decimal rendering of the collision counter

The collision loop of `process_tabs` builds names `f"{stem}_{counter}.pdf"`;
the counter is rendered in decimal by the f-string. -/

def digitChar (d : Nat) : Char :=
  if d = 0 then '0' else if d = 1 then '1' else if d = 2 then '2'
  else if d = 3 then '3' else if d = 4 then '4' else if d = 5 then '5'
  else if d = 6 then '6' else if d = 7 then '7' else if d = 8 then '8' else '9'

def natToDecAux : Nat → Nat → List Char
  | 0, _ => []
  | fuel + 1, n =>
    if n < 10 then [digitChar n] else natToDecAux fuel (n / 10) ++ [digitChar (n % 10)]

/-- Decimal rendering of a natural number, most significant digit first. -/
def natToDec (n : Nat) : List Char := natToDecAux (n + 1) n

example : natToDec 0 = "0".toList := by decide

example : natToDec 437 = "437".toList := by decide

/-- Left inverse of `natToDec`. -/
def decVal (l : List Char) : Nat := l.foldl (fun acc c => 10 * acc + (c.toNat - 48)) 0

theorem digitChar_val {d : Nat} (h : d < 10) : (digitChar d).toNat - 48 = d := by
  interval_cases d <;> decide

theorem decVal_append_digit (l : List Char) (c : Char) :
    decVal (l ++ [c]) = 10 * decVal l + (c.toNat - 48) := by
  unfold decVal
  rw [List.foldl_append]
  rfl

theorem decVal_natToDecAux : ∀ (fuel n : Nat), n < fuel → decVal (natToDecAux fuel n) = n
  | 0, n, h => absurd h (by omega)
  | fuel + 1, n, h => by
    by_cases hn : n < 10
    · rw [natToDecAux, if_pos hn]
      show decVal [digitChar n] = n
      unfold decVal
      simp only [List.foldl_cons, List.foldl_nil]
      rw [Nat.mul_zero, Nat.zero_add]
      exact digitChar_val hn
    · rw [natToDecAux, if_neg hn]
      have hdiv : n / 10 < n := Nat.div_lt_self (by omega) (by omega)
      rw [decVal_append_digit, decVal_natToDecAux fuel (n / 10) (by omega),
        digitChar_val (Nat.mod_lt n (by omega))]
      omega

theorem decVal_natToDec (n : Nat) : decVal (natToDec n) = n :=
  decVal_natToDecAux (n + 1) n (by omega)

theorem natToDec_injective : Function.Injective natToDec := by
  intro a b h
  have := congrArg decVal h
  rwa [decVal_natToDec, decVal_natToDec] at this

/-! ## PDF filename choice (tab_archiver_working.py:319-328)

`pdf_path = day_dir / f"{safe_title}.pdf"`, then while the path exists,
`pdf_path = day_dir / f"{stem}_{counter}.pdf"` with
`stem = safe_filename(title, max_filename_length - 10)` and an incrementing
counter.  Filenames are relative to the per-day directory, whose current
contents are the list `files`. -/

/-- `f"{safe_title}.pdf"`. -/
def baseName (title : List Char) (maxLen : Nat) : List Char :=
  safe_filename title maxLen ++ ".pdf".toList

/-- `f"{stem}_{counter}.pdf"`. -/
def suffixName (stem : List Char) (n : Nat) : List Char :=
  stem ++ '_' :: (natToDec n ++ ".pdf".toList)

/-- The `while pdf_path.exists()` loop of `process_tabs`, with explicit fuel;
the counter starts at 1 and increments until a free name is found. -/
def findSuffixed (files : List (List Char)) (stem : List Char) :
    Nat → Nat → Option (List Char)
  | 0, _ => none
  | fuel + 1, counter =>
    let cand := suffixName stem counter
    if cand ∈ files then findSuffixed files stem fuel (counter + 1) else some cand

/-- The filename assigned to a tab: the sanitized title with `.pdf`, or the
first free suffixed name when that already exists.  `files.length + 1`
iterations always suffice (the candidate names are pairwise distinct), so the
`getD` default is never taken. -/
def choosePdfName (files : List (List Char)) (title : List Char) (maxLen : Nat) :
    List Char :=
  if baseName title maxLen ∈ files then
    (findSuffixed files (safe_filename title (maxLen - 10)) (files.length + 1) 1).getD
      (baseName title maxLen)
  else baseName title maxLen

theorem suffixName_injective (stem : List Char) {a b : Nat}
    (h : suffixName stem a = suffixName stem b) : a = b := by
  unfold suffixName at h
  have h1 := List.append_cancel_left h
  have h2 : natToDec a ++ ".pdf".toList = natToDec b ++ ".pdf".toList := by
    injection h1
  exact natToDec_injective (List.append_cancel_right h2)

theorem findSuffixed_some {files : List (List Char)} {stem : List Char} :
    ∀ {fuel counter : Nat} {out : List Char},
    findSuffixed files stem fuel counter = some out →
    out ∉ files ∧ ∃ n, counter ≤ n ∧ out = suffixName stem n := by
  intro fuel
  induction fuel with
  | zero => intro counter out h; exact absurd h (by simp [findSuffixed])
  | succ f ih =>
    intro counter out h
    rw [findSuffixed] at h
    by_cases hc : suffixName stem counter ∈ files
    · rw [if_pos hc] at h
      rcases ih h with ⟨hout, n, hn, hform⟩
      exact ⟨hout, n, by omega, hform⟩
    · rw [if_neg hc] at h
      have : suffixName stem counter = out := by injection h
      subst this
      exact ⟨hc, counter, le_refl _, rfl⟩

theorem findSuffixed_none {files : List (List Char)} {stem : List Char} :
    ∀ {fuel counter : Nat},
    findSuffixed files stem fuel counter = none →
    ∀ k < fuel, suffixName stem (counter + k) ∈ files := by
  intro fuel
  induction fuel with
  | zero => intro counter h k hk; omega
  | succ f ih =>
    intro counter h k hk
    rw [findSuffixed] at h
    by_cases hc : suffixName stem counter ∈ files
    · rw [if_pos hc] at h
      cases k with
      | zero => simpa using hc
      | succ j =>
        have := ih h j (by omega)
        have harith : counter + 1 + j = counter + (j + 1) := by omega
        rwa [harith] at this
    · rw [if_neg hc] at h
      exact absurd h (by simp)

theorem findSuffixed_total (files : List (List Char)) (stem : List Char) :
    ∃ out, findSuffixed files stem (files.length + 1) 1 = some out := by
  match h : findSuffixed files stem (files.length + 1) 1 with
  | some out => exact ⟨out, rfl⟩
  | none =>
    exfalso
    have hall := findSuffixed_none h
    have hsub : ((List.range (files.length + 1)).map fun k => suffixName stem (1 + k))
        ⊆ files := by
      intro x hx
      rcases List.mem_map.mp hx with ⟨k, hk, rfl⟩
      exact hall k (List.mem_range.mp hk)
    have hnodup : ((List.range (files.length + 1)).map fun k =>
        suffixName stem (1 + k)).Nodup := by
      refine (List.nodup_range (files.length + 1)).map ?_
      intro a b hab
      have := suffixName_injective stem hab
      omega
    have := (hnodup.subperm hsub).length_le
    rw [List.length_map, List.length_range] at this
    omega

/-- The chosen PDF filename never collides with an existing file. -/
theorem choosePdfName_not_mem (files : List (List Char)) (title : List Char)
    (maxLen : Nat) : choosePdfName files title maxLen ∉ files := by
  unfold choosePdfName
  by_cases hb : baseName title maxLen ∈ files
  · rw [if_pos hb]
    rcases findSuffixed_total files (safe_filename title (maxLen - 10)) with ⟨out, hout⟩
    rw [hout]
    exact (findSuffixed_some hout).1
  · rw [if_neg hb]
    exact hb

/-- When the base name already exists, the chosen name carries a numeric
collision suffix on the shorter stem. -/
theorem choosePdfName_suffix (files : List (List Char)) (title : List Char)
    (maxLen : Nat) (hb : baseName title maxLen ∈ files) :
    ∃ n, 1 ≤ n ∧
      choosePdfName files title maxLen = suffixName (safe_filename title (maxLen - 10)) n := by
  unfold choosePdfName
  rw [if_pos hb]
  rcases findSuffixed_total files (safe_filename title (maxLen - 10)) with ⟨out, hout⟩
  rw [hout]
  rcases (findSuffixed_some hout).2 with ⟨n, hn, hform⟩
  exact ⟨n, hn, by simp [hform]⟩

/-- After a tab is archived under `choosePdfName`, its base name is present
among the files (either it was just written, or it was already there). -/
theorem baseName_mem_after (files : List (List Char)) (title : List Char)
    (maxLen : Nat) : baseName title maxLen ∈ choosePdfName files title maxLen :: files := by
  by_cases hb : baseName title maxLen ∈ files
  · exact List.mem_cons_of_mem _ hb
  · unfold choosePdfName
    rw [if_neg hb]
    exact List.mem_cons_self _ _

/-! ## The data model of a run -/

/-- A tab as returned by the DevTools `/json` endpoint.  `url` and `title`
carry the `.get` defaults (`""` and `"untitled"`) already applied; `id` and
`ty` (`"type"`) may be absent. -/
structure Tab where
  id : Option (List Char)
  url : List Char
  title : List Char
  ty : Option (List Char)
  deriving DecidableEq

/-- One row of the HTML index, as appended by `store_locally` (the real row
also renders the timestamp, domain and file size; the claims only concern
which tab produced it and which PDF file it references). -/
structure Row where
  tab : Tab
  pdfName : List Char
  deriving DecidableEq

/-- The observable side effects of a run, in order.  `renderAttempt` is one
iteration of the retry loop of `snap_and_close_tab`; `writePdf` is the
successful `page.pdf(...)` call; `closeTabReq` is the POST to
`/json/close/{id}`; `appendRow` and `ensureIndex` are `store_locally`;
`copyHistory` and `deleteTmp` are the temporary history copy and its removal;
`mkDayDir` is the creation of the per-day output directory. -/
inductive Event where
  | mkDayDir
  | copyHistory
  | renderAttempt (tab : Tab) (attempt : Nat)
  | sleepBackoff
  | writePdf (name : List Char)
  | closeTabReq (id : List Char)
  | ensureIndex
  | appendRow (row : Row)
  | deleteTmp
  deriving DecidableEq

/-- The configuration fields of `Config` that the pipeline reads (ports,
paths and timeouts are plumbing fixed by the environment). -/
structure Config where
  days_idle : Int
  max_filename_length : Nat
  max_retries : Nat
  dry_run : Bool

/-- The external world of one run: whether the history database file exists,
the current time, the DevTools tab-list response (`none` = request failed),
whether `shutil.copy2` succeeds, the last-visit time per URL in the copied
history (`none` = no row or database error), the outcome of each render
attempt per tab, and the files initially present in the day directory. -/
structure Env where
  historyExists : Bool
  now : Int
  fetchResult : Option (List Tab)
  copyOk : Bool
  history : List Char → Option Int
  renderOk : Tab → Nat → Bool
  initialFiles : List (List Char)

/-- `get_open_tabs` (tab_archiver_working.py:185-195): a connection error is
logged and turned into the empty list. -/
def getOpenTabs (env : Env) : List Tab :=
  match env.fetchResult with
  | none => []
  | some ts => ts

/-- `"page"`. -/
def pageType : List Char := "page".toList

/-- Python `str.startswith`. -/
def strStarts : List Char → List Char → Bool
  | [], _ => true
  | _ :: _, [] => false
  | p :: ps, c :: cs => p = c && strStarts ps cs

/-- `url.startswith(("chrome://", "chrome-extension://", "edge://", "about:"))`. -/
def isInternalUrl (u : List Char) : Bool :=
  strStarts "chrome://".toList u || strStarts "chrome-extension://".toList u ||
    strStarts "edge://".toList u || strStarts "about:".toList u

/-- The close-tab request of `snap_and_close_tab` (lines 249-254): sent only
outside dry runs and only when the tab id is truthy; its own failure is
swallowed. -/
def closeEvents (cfg : Config) (t : Tab) : List Event :=
  if cfg.dry_run then []
  else
    match t.id with
    | none => []
    | some i => if i.isEmpty then [] else [Event.closeTabReq i]

/-- The `for attempt in range(max_retries)` loop of `snap_and_close_tab`
(lines 221-269): each iteration either succeeds (writing the PDF, sending
the close request and returning `True`) or fails, sleeping for the fixed
backoff except after the final attempt. -/
def snapLoop (cfg : Config) (rok : Tab → Nat → Bool) (t : Tab) (pdfName : List Char) :
    Nat → Nat → Bool × List Event
  | _, 0 => (false, [])
  | attempt, remaining + 1 =>
    if rok t attempt then
      (true, Event.renderAttempt t attempt :: Event.writePdf pdfName :: closeEvents cfg t)
    else
      let rest := snapLoop cfg rok t pdfName (attempt + 1) remaining
      (rest.1,
        Event.renderAttempt t attempt ::
          ((if remaining = 0 then [] else [Event.sleepBackoff]) ++ rest.2))

/-- `snap_and_close_tab` (lines 212-269): an empty URL is rejected up front,
otherwise the retry loop runs with attempts `0, ..., max_retries - 1`. -/
def snapAndCloseTab (cfg : Config) (rok : Tab → Nat → Bool) (t : Tab)
    (pdfName : List Char) : Bool × List Event :=
  if t.url.isEmpty then (false, [])
  else snapLoop cfg rok t pdfName 0 cfg.max_retries

/-- The per-tab loop of `process_tabs` (lines 302-344).  The state carried
across tabs is the set of files in the day directory; the result is the
`processed` counter, the final file list and the emitted events. -/
def processLoop (cfg : Config) (hist : List Char → Option Int)
    (rok : Tab → Nat → Bool) (cutoff : Int) :
    List Tab → List (List Char) → Nat × List (List Char) × List Event
  | [], files => (0, files, [])
  | t :: rest, files =>
    if t.url.isEmpty || isInternalUrl t.url then processLoop cfg hist rok cutoff rest files
    else
      match hist t.url with
      | none => processLoop cfg hist rok cutoff rest files
      | some lastVisit =>
        if cutoff < lastVisit then processLoop cfg hist rok cutoff rest files
        else
          let pdfName := choosePdfName files t.title cfg.max_filename_length
          if cfg.dry_run then
            let r := processLoop cfg hist rok cutoff rest files
            (r.1 + 1, r.2.1, r.2.2)
          else
            let s := snapAndCloseTab cfg rok t pdfName
            if s.1 then
              let r := processLoop cfg hist rok cutoff rest (pdfName :: files)
              (r.1 + 1, r.2.1,
                s.2 ++ Event.ensureIndex :: Event.appendRow ⟨t, pdfName⟩ :: r.2.2)
            else
              let r := processLoop cfg hist rok cutoff rest files
              (r.1, r.2.1, s.2 ++ r.2.2)

/-- `process_tabs` (lines 271-349): bail out if the history database is
missing; create the day directory unless dry-running; fetch the tab list
(empty on connection failure) and bail out if empty; filter page tabs; copy
the history database, bailing out with all page tabs counted as failed on
error; run the per-tab loop; remove the temporary copy. -/
def processTabs (cfg : Config) (env : Env) : (Nat × Nat) × List Event :=
  if env.historyExists = false then ((0, 0), [])
  else
    let cutoff := env.now - cfg.days_idle
    let dirEvs := if cfg.dry_run then [] else [Event.mkDayDir]
    let tabs := getOpenTabs env
    if tabs.isEmpty then ((0, 0), dirEvs)
    else
      let pageTabs := tabs.filter fun t => decide (t.ty = some pageType)
      if env.copyOk = false then ((0, pageTabs.length), dirEvs)
      else
        let r := processLoop cfg env.history env.renderOk cutoff pageTabs env.initialFiles
        ((r.1, pageTabs.length), dirEvs ++ Event.copyHistory :: (r.2.2 ++ [Event.deleteTmp]))

/-- `processTabs` with its `let`-bindings inlined (definitional). -/
theorem processTabs_unfold (cfg : Config) (env : Env) :
    processTabs cfg env =
      if env.historyExists = false then ((0, 0), [])
      else
        if (getOpenTabs env).isEmpty = true then
          ((0, 0), if cfg.dry_run = true then [] else [Event.mkDayDir])
        else
          if env.copyOk = false then
            ((0, ((getOpenTabs env).filter fun t => decide (t.ty = some pageType)).length),
              if cfg.dry_run = true then [] else [Event.mkDayDir])
          else
            (((processLoop cfg env.history env.renderOk (env.now - cfg.days_idle)
                  ((getOpenTabs env).filter fun t => decide (t.ty = some pageType))
                  env.initialFiles).1,
               ((getOpenTabs env).filter fun t => decide (t.ty = some pageType)).length),
              (if cfg.dry_run = true then [] else [Event.mkDayDir]) ++
                Event.copyHistory ::
                  ((processLoop cfg env.history env.renderOk (env.now - cfg.days_idle)
                      ((getOpenTabs env).filter fun t => decide (t.ty = some pageType))
                      env.initialFiles).2.2 ++ [Event.deleteTmp])) := rfl

/-- The index rows appended during a trace, in order. -/
def rowsOf : List Event → List Row
  | [] => []
  | Event.appendRow r :: rest => r :: rowsOf rest
  | _ :: rest => rowsOf rest

/-- The snapshot PDF files successfully written during a trace, in order. -/
def pdfsOf : List Event → List (List Char)
  | [] => []
  | Event.writePdf n :: rest => n :: pdfsOf rest
  | _ :: rest => pdfsOf rest

/-! ## Concrete instances used by counterexamples and witnesses -/

/-- A page tab with an ordinary http URL. -/
def tabA : Tab :=
  ⟨some "T1".toList, "http://a.example/".toList, "Same Title".toList, some pageType⟩

/-- A second page tab whose title sanitizes identically to `tabA`'s. -/
def tabB : Tab :=
  ⟨some "T2".toList, "http://b.example/".toList, "Same Title".toList, some pageType⟩

/-- A devtools-internal tab, filtered out by the URL-scheme check. -/
def tabInternal : Tab :=
  ⟨some "T3".toList, "chrome://settings".toList, "Settings".toList, some pageType⟩

/-- The default configuration (14 idle days, 80-character filenames, 3 render
retries), in dry-run mode. -/
def cfgDry : Config := ⟨14, 80, 3, true⟩

/-- The default configuration, not in dry-run mode. -/
def cfgWet : Config := ⟨14, 80, 3, false⟩

/-- An environment with two qualifying page tabs whose last visit is exactly
the cutoff `now - days_idle`, every render attempt succeeding. -/
def envTwo : Env :=
  ⟨true, 14, some [tabA, tabB], true, fun _ => some 0, fun _ _ => true, []⟩

example : (processTabs cfgWet envTwo).1 = (2, 2) := by decide

example : rowsOf (processTabs cfgWet envTwo).2 =
    [⟨tabA, "Same Title.pdf".toList⟩, ⟨tabB, "Same Title_1.pdf".toList⟩] := by decide

example : (processTabs cfgDry envTwo).1 = (2, 2) := by decide

example : (processTabs cfgDry envTwo).2 = [Event.copyHistory, Event.deleteTmp] := by decide

/-- An environment with a single qualifying page tab whose last visit is
exactly the cutoff. -/
def envOne : Env :=
  ⟨true, 14, some [tabA], true, fun _ => some 0, fun _ _ => true, []⟩

/-- An environment whose DevTools endpoint is unreachable. -/
def envDown : Env :=
  ⟨true, 14, none, true, fun _ => some 0, fun _ _ => true, []⟩

/-- An environment where copying the history database fails. -/
def envCopyFail : Env :=
  ⟨true, 14, some [tabA, tabInternal], false, fun _ => some 0, fun _ _ => true, []⟩

/-! ## Claim C1 -/

/-- C1 (counterexample): a tab whose last-visit time equals the cutoff
`now - days_idle` IS selected for archival (the loop skips only on
`last_visit > cutoff`), contradicting the claim that selection requires the
last visit to be strictly before the cutoff. -/
theorem staleness_selects_at_cutoff :
    envOne.history tabA.url = some (envOne.now - cfgDry.days_idle) ∧
    (processTabs cfgDry envOne).1.1 = 1 :=
  ⟨by decide, by decide⟩

/-- C1 (amended): for a tab with a usable URL and a history entry, the
staleness filter of `process_tabs` selects the tab for archival iff its last
visit is at or before the cutoff `now - days_idle`; in particular a tab whose
last visit equals the cutoff is selected. -/
theorem staleness_filter_le_cutoff (cfg : Config) (env : Env) (t : Tab)
    (files : List (List Char)) (lv : Int)
    (hdry : cfg.dry_run = true)
    (hurl : t.url.isEmpty = false)
    (hint : isInternalUrl t.url = false)
    (hh : env.history t.url = some lv) :
    (processLoop cfg env.history env.renderOk (env.now - cfg.days_idle) [t] files).1 = 1 ↔
      lv ≤ env.now - cfg.days_idle := by
  rw [processLoop]
  rw [if_neg (by rw [hurl, hint]; simp)]
  simp only [hh]
  by_cases hc : env.now - cfg.days_idle < lv
  · rw [if_pos hc]
    rw [processLoop]
    simp
    omega
  · rw [if_neg hc]
    simp only [hdry, if_true]
    rw [processLoop]
    simp
    omega

/-- C1 witness: the amended staleness theorem applied to the concrete
single-tab environment whose last visit equals the cutoff. -/
theorem staleness_filter_le_cutoff_witness :
    cfgDry.dry_run = true ∧ tabA.url.isEmpty = false ∧ isInternalUrl tabA.url = false ∧
    envOne.history tabA.url = some 0 ∧
    ((processLoop cfgDry envOne.history envOne.renderOk (envOne.now - cfgDry.days_idle) [tabA] []).1 = 1 ↔
      (0 : Int) ≤ envOne.now - cfgDry.days_idle) :=
  ⟨rfl, by decide, by decide, rfl,
   staleness_filter_le_cutoff cfgDry envOne tabA [] 0 rfl (by decide) (by decide) rfl⟩

/-! ## Claim C4 -/

/-- The selection tests of the per-tab loop (lines 302-316), combined: a
nonempty non-internal URL, a history row, and a last visit at or before the
cutoff. -/
def tabQualifies (env : Env) (cutoff : Int) (t : Tab) : Bool :=
  !(t.url.isEmpty || isInternalUrl t.url) &&
    match env.history t.url with
    | none => false
    | some lv => !(decide (cutoff < lv))

/-- In a dry run the per-tab loop only counts the qualifying tabs: the file
list is untouched and no event is emitted. -/
theorem processLoop_dry (cfg : Config) (env : Env) (cutoff : Int)
    (hdry : cfg.dry_run = true) :
    ∀ (tabs : List Tab) (files : List (List Char)),
    processLoop cfg env.history env.renderOk cutoff tabs files =
      ((tabs.filter (tabQualifies env cutoff)).length, files, [])
  | [], files => by rw [processLoop]; rfl
  | t :: rest, files => by
    rw [processLoop]
    by_cases hg : (t.url.isEmpty || isInternalUrl t.url) = true
    · rw [if_pos hg, processLoop_dry cfg env cutoff hdry rest files]
      have hq : tabQualifies env cutoff t = false := by
        unfold tabQualifies
        rw [hg]
        rfl
      rw [List.filter_cons_of_neg (by rw [hq]; exact Bool.false_ne_true)]
    · rw [if_neg hg]
      have hg' : (t.url.isEmpty || isInternalUrl t.url) = false := by
        cases h : (t.url.isEmpty || isInternalUrl t.url)
        · rfl
        · exact absurd h hg
      cases hh : env.history t.url with
      | none =>
        dsimp only
        rw [processLoop_dry cfg env cutoff hdry rest files]
        have hq : tabQualifies env cutoff t = false := by
          unfold tabQualifies
          rw [hg', hh]
          rfl
        rw [List.filter_cons_of_neg (by rw [hq]; exact Bool.false_ne_true)]
      | some lv =>
        dsimp only
        by_cases hc : cutoff < lv
        · rw [if_pos hc, processLoop_dry cfg env cutoff hdry rest files]
          have hq : tabQualifies env cutoff t = false := by
            unfold tabQualifies
            rw [hg', hh]
            simp [hc]
          rw [List.filter_cons_of_neg (by rw [hq]; exact Bool.false_ne_true)]
        · rw [if_neg hc]
          simp only [hdry, if_true]
          rw [processLoop_dry cfg env cutoff hdry rest files]
          have hq : tabQualifies env cutoff t = true := by
            unfold tabQualifies
            rw [hg', hh]
            simp [hc]
          rw [List.filter_cons_of_pos hq]
          rfl

/-- C4: a dry run sends no tab-close request and creates no day directory,
snapshot, or index row — its only events are the history-copy bookkeeping;
and when the run reaches the per-tab loop the processed count is exactly the
number of qualifying page tabs. -/
theorem dry_run_no_effects (cfg : Config) (env : Env)
    (hdry : cfg.dry_run = true) :
    (∀ e ∈ (processTabs cfg env).2, e = Event.copyHistory ∨ e = Event.deleteTmp) ∧
    (∀ ts, env.historyExists = true → env.fetchResult = some ts → ts ≠ [] →
      env.copyOk = true →
      (processTabs cfg env).1.1 =
        ((ts.filter fun t => decide (t.ty = some pageType)).filter
          (tabQualifies env (env.now - cfg.days_idle))).length) := by
  constructor
  · intro e he
    by_cases hh : env.historyExists = false
    · rw [processTabs, if_pos hh] at he
      simp at he
    · rw [processTabs, if_neg hh] at he
      simp only [hdry, if_true] at he
      by_cases hempty : (getOpenTabs env).isEmpty = true
      · rw [if_pos hempty] at he
        simp at he
      · rw [if_neg hempty] at he
        by_cases hcopy : env.copyOk = false
        · rw [if_pos hcopy] at he
          simp at he
        · rw [if_neg hcopy] at he
          rw [processLoop_dry cfg env (env.now - cfg.days_idle) hdry] at he
          simpa using he
  · intro ts hh hf hne hcopy
    have htabs : getOpenTabs env = ts := by rw [getOpenTabs, hf]
    have hnotempty : ts.isEmpty = false := by
      cases ts with
      | nil => exact absurd rfl hne
      | cons a r => rfl
    rw [processTabs, if_neg (by rw [hh]; simp)]
    simp only [htabs, hnotempty, hcopy]
    rw [processLoop_dry cfg env (env.now - cfg.days_idle) hdry]
    simp

/-- C4 witness: the dry-run theorem applied to the concrete two-tab
environment, both tabs qualifying. -/
theorem dry_run_no_effects_witness :
    cfgDry.dry_run = true ∧
    ((∀ e ∈ (processTabs cfgDry envTwo).2,
        e = Event.copyHistory ∨ e = Event.deleteTmp) ∧
      (∀ ts, envTwo.historyExists = true → envTwo.fetchResult = some ts → ts ≠ [] →
        envTwo.copyOk = true →
        (processTabs cfgDry envTwo).1.1 =
          ((ts.filter fun t => decide (t.ty = some pageType)).filter
            (tabQualifies envTwo (envTwo.now - cfgDry.days_idle))).length)) :=
  ⟨rfl, dry_run_no_effects cfgDry envTwo rfl⟩

/-! ## Claim C6 -/

/-- C6: when the DevTools tab-list request fails, `process_tabs` returns
`(0, 0)` and the trace contains at most the day-directory creation: no render
attempt, no close request, no snapshot and no index write occur. -/
theorem connectivity_failure_aborts (cfg : Config) (env : Env)
    (hf : env.fetchResult = none) :
    (processTabs cfg env).1 = (0, 0) ∧
    ∀ e ∈ (processTabs cfg env).2, e = Event.mkDayDir := by
  by_cases hh : env.historyExists = false
  · simp [processTabs, hh]
  · have hempty : getOpenTabs env = [] := by rw [getOpenTabs, hf]
    simp only [processTabs, if_neg hh, hempty, List.isEmpty_nil, if_true]
    refine ⟨by trivial, ?_⟩
    intro e he
    by_cases hd : cfg.dry_run = true
    · rw [hd] at he
      simp at he
    · have hd' : cfg.dry_run = false := by
        cases h : cfg.dry_run
        · rfl
        · exact absurd h hd
      rw [hd'] at he
      simpa using he

/-- C6 witness: the connectivity-failure theorem applied to the concrete
unreachable-endpoint environment. -/
theorem connectivity_failure_aborts_witness :
    envDown.fetchResult = none ∧
    ((processTabs cfgWet envDown).1 = (0, 0) ∧
      ∀ e ∈ (processTabs cfgWet envDown).2, e = Event.mkDayDir) :=
  ⟨rfl, connectivity_failure_aborts cfgWet envDown rfl⟩

/-! ## Claim C7 -/

/-- C7: when copying the history database fails, `process_tabs` returns zero
processed with all page-type tabs counted in the total, and the trace contains
at most the day-directory creation: no tab is rendered, closed or indexed. -/
theorem history_copy_failure_aborts (cfg : Config) (env : Env) (ts : List Tab)
    (hh : env.historyExists = true)
    (hf : env.fetchResult = some ts)
    (hne : ts ≠ [])
    (hcopy : env.copyOk = false) :
    (processTabs cfg env).1 =
      (0, (ts.filter fun t => decide (t.ty = some pageType)).length) ∧
    ∀ e ∈ (processTabs cfg env).2, e = Event.mkDayDir := by
  have htabs : getOpenTabs env = ts := by rw [getOpenTabs, hf]
  have hnotempty : ts.isEmpty = false := by
    cases ts with
    | nil => exact absurd rfl hne
    | cons a r => rfl
  simp only [processTabs, hh, htabs, hnotempty, hcopy]
  refine ⟨by simp, ?_⟩
  intro e he
  by_cases hd : cfg.dry_run = true
  · rw [hd] at he
    simp at he
  · have hd' : cfg.dry_run = false := by
      cases h : cfg.dry_run
      · rfl
      · exact absurd h hd
    rw [hd'] at he
    simp at he
    simp [he]

/-- C7 witness: the history-copy-failure theorem applied to the concrete
environment with a failing copy and two open tabs (one page-typed http tab
and one internal tab, both page-typed, so the total is 2). -/
theorem history_copy_failure_aborts_witness :
    envCopyFail.historyExists = true ∧ envCopyFail.fetchResult = some [tabA, tabInternal] ∧
    [tabA, tabInternal] ≠ ([] : List Tab) ∧ envCopyFail.copyOk = false ∧
    ((processTabs cfgWet envCopyFail).1 =
      (0, ([tabA, tabInternal].filter fun t => decide (t.ty = some pageType)).length) ∧
      ∀ e ∈ (processTabs cfgWet envCopyFail).2, e = Event.mkDayDir) :=
  ⟨rfl, rfl, by decide, rfl,
   history_copy_failure_aborts cfgWet envCopyFail [tabA, tabInternal] rfl rfl (by decide) rfl⟩

/-! ## Trace anatomy of the snapshot step -/

theorem rowsOf_append : ∀ (l1 l2 : List Event), rowsOf (l1 ++ l2) = rowsOf l1 ++ rowsOf l2
  | [], l2 => rfl
  | e :: r, l2 => by
    cases e <;> simp [rowsOf, rowsOf_append r l2]

theorem pdfsOf_append : ∀ (l1 l2 : List Event), pdfsOf (l1 ++ l2) = pdfsOf l1 ++ pdfsOf l2
  | [], l2 => rfl
  | e :: r, l2 => by
    cases e <;> simp [pdfsOf, pdfsOf_append r l2]

theorem closeEvents_rows_pdfs (cfg : Config) (t : Tab) :
    rowsOf (closeEvents cfg t) = [] ∧ pdfsOf (closeEvents cfg t) = [] := by
  unfold closeEvents
  by_cases hd : cfg.dry_run = true
  · rw [if_pos hd]
    exact ⟨rfl, rfl⟩
  · rw [if_neg hd]
    cases t.id with
    | none => exact ⟨rfl, rfl⟩
    | some i =>
      dsimp only
      by_cases hi : i.isEmpty = true
      · rw [if_pos hi]
        exact ⟨rfl, rfl⟩
      · rw [if_neg hi]
        exact ⟨rfl, rfl⟩

/-- The retry loop writes a PDF iff it reports success, and appends no row. -/
theorem snapLoop_rows_pdfs (cfg : Config) (env : Env) (t : Tab) (name : List Char) :
    ∀ (fuel a : Nat),
    pdfsOf (snapLoop cfg env.renderOk t name a fuel).2 =
      (if (snapLoop cfg env.renderOk t name a fuel).1 then [name] else []) ∧
    rowsOf (snapLoop cfg env.renderOk t name a fuel).2 = []
  | 0, a => by
    rw [snapLoop]
    exact ⟨rfl, rfl⟩
  | fuel + 1, a => by
    rw [snapLoop]
    by_cases hr : env.renderOk t a = true
    · rw [if_pos hr]
      have hc := closeEvents_rows_pdfs cfg t
      constructor
      · simp [pdfsOf, hc.2]
      · simp [rowsOf, hc.1]
    · rw [if_neg hr]
      have ih := snapLoop_rows_pdfs cfg env t name fuel (a + 1)
      constructor
      · dsimp only
        by_cases hz : fuel = 0 <;> simp [hz, pdfsOf, pdfsOf_append, ih.1, snapLoop]
      · dsimp only
        by_cases hz : fuel = 0 <;> simp [hz, rowsOf, rowsOf_append, ih.2, snapLoop]

theorem snapAndClose_rows_pdfs (cfg : Config) (env : Env) (t : Tab) (name : List Char) :
    pdfsOf (snapAndCloseTab cfg env.renderOk t name).2 =
      (if (snapAndCloseTab cfg env.renderOk t name).1 then [name] else []) ∧
    rowsOf (snapAndCloseTab cfg env.renderOk t name).2 = [] := by
  unfold snapAndCloseTab
  by_cases hu : t.url.isEmpty = true
  · rw [if_pos hu]
    exact ⟨rfl, rfl⟩
  · rw [if_neg hu]
    exact snapLoop_rows_pdfs cfg env t name cfg.max_retries 0

/-! ## Claim C2 -/

/-- In the per-tab loop, the pdf names of the appended index rows are exactly
the successfully written snapshot files, in order. -/
theorem processLoop_rows_eq_pdfs (cfg : Config) (env : Env) (cutoff : Int) :
    ∀ (tabs : List Tab) (files : List (List Char)),
    (rowsOf (processLoop cfg env.history env.renderOk cutoff tabs files).2.2).map Row.pdfName =
      pdfsOf (processLoop cfg env.history env.renderOk cutoff tabs files).2.2
  | [], files => by
    rw [processLoop]
    rfl
  | t :: rest, files => by
    rw [processLoop]
    by_cases hg : (t.url.isEmpty || isInternalUrl t.url) = true
    · rw [if_pos hg]
      exact processLoop_rows_eq_pdfs cfg env cutoff rest files
    · rw [if_neg hg]
      cases hh : env.history t.url with
      | none => exact processLoop_rows_eq_pdfs cfg env cutoff rest files
      | some lv =>
        dsimp only
        by_cases hc : cutoff < lv
        · rw [if_pos hc]
          exact processLoop_rows_eq_pdfs cfg env cutoff rest files
        · rw [if_neg hc]
          by_cases hd : cfg.dry_run = true
          · rw [if_pos hd]
            exact processLoop_rows_eq_pdfs cfg env cutoff rest files
          · rw [if_neg hd]
            set p := choosePdfName files t.title cfg.max_filename_length with hp
            have hsnap := snapAndClose_rows_pdfs cfg env t p
            by_cases hs : (snapAndCloseTab cfg env.renderOk t p).1 = true
            · rw [if_pos hs]
              dsimp only
              rw [rowsOf_append, pdfsOf_append, hsnap.2, hsnap.1, if_pos hs]
              simp only [rowsOf, pdfsOf, List.nil_append, List.singleton_append,
                List.map_cons]
              rw [processLoop_rows_eq_pdfs cfg env cutoff rest (p :: files)]
            · rw [if_neg hs]
              dsimp only
              rw [rowsOf_append, pdfsOf_append, hsnap.2, hsnap.1, if_neg hs]
              rw [List.nil_append, List.nil_append]
              exact processLoop_rows_eq_pdfs cfg env cutoff rest files

/-- C2: over a whole non-dry run, an index row is appended iff the
corresponding snapshot file was produced: the pdf names of the appended rows
are exactly the successfully written snapshot files, in order; in particular
a tab whose render fails after all retries adds no row. -/
theorem index_row_iff_snapshot (cfg : Config) (env : Env)
    (hdry : cfg.dry_run = false) :
    (rowsOf (processTabs cfg env).2).map Row.pdfName = pdfsOf (processTabs cfg env).2 := by
  by_cases hh : env.historyExists = false
  · rw [processTabs, if_pos hh]
    rfl
  · rw [processTabs, if_neg hh]
    simp only [hdry]
    by_cases hempty : (getOpenTabs env).isEmpty = true
    · rw [if_pos hempty]
      rfl
    · rw [if_neg hempty]
      by_cases hcopy : env.copyOk = false
      · rw [if_pos hcopy]
        rfl
      · rw [if_neg hcopy]
        dsimp only
        have hmain := processLoop_rows_eq_pdfs cfg env (env.now - cfg.days_idle)
          ((getOpenTabs env).filter fun t => decide (t.ty = some pageType)) env.initialFiles
        simp [rowsOf_append, pdfsOf_append, rowsOf, pdfsOf, hmain]

/-- C2 witness: the row/snapshot correspondence applied to the concrete
two-tab non-dry run. -/
theorem index_row_iff_snapshot_witness :
    cfgWet.dry_run = false ∧
    (rowsOf (processTabs cfgWet envTwo).2).map Row.pdfName =
      pdfsOf (processTabs cfgWet envTwo).2 :=
  ⟨rfl, index_row_iff_snapshot cfgWet envTwo rfl⟩

/-! ## Claim C8 -/

/-- The render attempts of a trace. -/
def renderCount : List Event → Nat
  | [] => 0
  | Event.renderAttempt _ _ :: rest => renderCount rest + 1
  | _ :: rest => renderCount rest

/-- The backoff sleeps of a trace. -/
def sleepCount : List Event → Nat
  | [] => 0
  | Event.sleepBackoff :: rest => sleepCount rest + 1
  | _ :: rest => sleepCount rest

theorem renderCount_append : ∀ (l1 l2 : List Event),
    renderCount (l1 ++ l2) = renderCount l1 + renderCount l2
  | [], l2 => by simp [renderCount]
  | e :: r, l2 => by
    cases e <;> simp [renderCount, renderCount_append r l2] <;> omega

theorem sleepCount_append : ∀ (l1 l2 : List Event),
    sleepCount (l1 ++ l2) = sleepCount l1 + sleepCount l2
  | [], l2 => by simp [sleepCount]
  | e :: r, l2 => by
    cases e <;> simp [sleepCount, sleepCount_append r l2] <;> omega

theorem closeEvents_counts (cfg : Config) (t : Tab) :
    renderCount (closeEvents cfg t) = 0 ∧ sleepCount (closeEvents cfg t) = 0 := by
  unfold closeEvents
  by_cases hd : cfg.dry_run = true
  · rw [if_pos hd]
    exact ⟨rfl, rfl⟩
  · rw [if_neg hd]
    cases t.id with
    | none => exact ⟨rfl, rfl⟩
    | some i =>
      dsimp only
      by_cases hi : i.isEmpty = true
      · rw [if_pos hi]
        exact ⟨rfl, rfl⟩
      · rw [if_neg hi]
        exact ⟨rfl, rfl⟩

/-- The retry loop makes at most `fuel` attempts. -/
theorem snapLoop_renderCount (cfg : Config) (env : Env) (t : Tab) (name : List Char) :
    ∀ (fuel a : Nat), renderCount (snapLoop cfg env.renderOk t name a fuel).2 ≤ fuel
  | 0, a => by
    rw [snapLoop]
    exact Nat.le_refl 0
  | fuel + 1, a => by
    rw [snapLoop]
    by_cases hr : env.renderOk t a = true
    · rw [if_pos hr]
      simp [renderCount, (closeEvents_counts cfg t).1]
    · rw [if_neg hr]
      have ih := snapLoop_renderCount cfg env t name fuel (a + 1)
      dsimp only
      by_cases hz : fuel = 0 <;>
        simp [hz, renderCount, renderCount_append, snapLoop] <;>
        omega

/-- The retry loop fails iff every attempt fails. -/
theorem snapLoop_false_iff (cfg : Config) (env : Env) (t : Tab) (name : List Char) :
    ∀ (fuel a : Nat),
    (snapLoop cfg env.renderOk t name a fuel).1 = false ↔
      ∀ i < fuel, env.renderOk t (a + i) = false
  | 0, a => by
    rw [snapLoop]
    simp
  | fuel + 1, a => by
    rw [snapLoop]
    by_cases hr : env.renderOk t a = true
    · rw [if_pos hr]
      constructor
      · intro h
        exact absurd h (by simp)
      · intro h
        have := h 0 (by omega)
        rw [Nat.add_zero] at this
        rw [hr] at this
        exact absurd this (by simp)
    · rw [if_neg hr]
      dsimp only
      rw [snapLoop_false_iff cfg env t name fuel (a + 1)]
      constructor
      · intro h i hi
        cases i with
        | zero =>
          rw [Nat.add_zero]
          cases hrr : env.renderOk t a
          · rfl
          · exact absurd hrr hr
        | succ j =>
          have := h j (by omega)
          have harith : a + 1 + j = a + (j + 1) := by omega
          rwa [harith] at this
      · intro h i hi
        have := h (i + 1) (by omega)
        have harith : a + (i + 1) = a + 1 + i := by omega
        rwa [harith] at this

/-- A failed retry loop sleeps the fixed backoff between consecutive
attempts: `fuel - 1` sleeps for `fuel` attempts. -/
theorem snapLoop_sleepCount (cfg : Config) (env : Env) (t : Tab) (name : List Char) :
    ∀ (fuel a : Nat), (snapLoop cfg env.renderOk t name a fuel).1 = false →
    sleepCount (snapLoop cfg env.renderOk t name a fuel).2 = fuel - 1
  | 0, a, _ => by
    rw [snapLoop]
    rfl
  | fuel + 1, a, h => by
    rw [snapLoop] at h ⊢
    by_cases hr : env.renderOk t a = true
    · rw [if_pos hr] at h
      exact absurd h (by simp)
    · rw [if_neg hr] at h ⊢
      dsimp only at h ⊢
      have ih := snapLoop_sleepCount cfg env t name fuel (a + 1) h
      by_cases hz : fuel = 0
      · subst hz
        simp [sleepCount, sleepCount_append, snapLoop]
      · rw [if_neg hz]
        simp [sleepCount, sleepCount_append, ih]
        omega

/-- C8: for a qualifying tab in a non-dry run, the render step makes at most
`max_retries` attempts; it reports failure (rather than raising) exactly when
all `max_retries` attempts fail; a failed tab sleeps the fixed backoff
between consecutive attempts (`max_retries - 1` sleeps); and after a failure
the loop simply continues with the remaining tabs, the file state unchanged. -/
theorem render_retry_bounded (cfg : Config) (env : Env) (t : Tab)
    (rest : List Tab) (files : List (List Char)) (cutoff lv : Int)
    (hdry : cfg.dry_run = false)
    (hurl : t.url.isEmpty = false)
    (hint : isInternalUrl t.url = false)
    (hh : env.history t.url = some lv)
    (hlv : ¬ cutoff < lv) :
    renderCount (snapAndCloseTab cfg env.renderOk t
        (choosePdfName files t.title cfg.max_filename_length)).2 ≤ cfg.max_retries ∧
    ((snapAndCloseTab cfg env.renderOk t
        (choosePdfName files t.title cfg.max_filename_length)).1 = false ↔
      ∀ i < cfg.max_retries, env.renderOk t i = false) ∧
    ((snapAndCloseTab cfg env.renderOk t
        (choosePdfName files t.title cfg.max_filename_length)).1 = false →
      sleepCount (snapAndCloseTab cfg env.renderOk t
        (choosePdfName files t.title cfg.max_filename_length)).2 = cfg.max_retries - 1) ∧
    ((snapAndCloseTab cfg env.renderOk t
        (choosePdfName files t.title cfg.max_filename_length)).1 = false →
      processLoop cfg env.history env.renderOk cutoff (t :: rest) files =
        ((processLoop cfg env.history env.renderOk cutoff rest files).1,
         (processLoop cfg env.history env.renderOk cutoff rest files).2.1,
         (snapAndCloseTab cfg env.renderOk t
            (choosePdfName files t.title cfg.max_filename_length)).2 ++
           (processLoop cfg env.history env.renderOk cutoff rest files).2.2)) := by
  have hsnap : snapAndCloseTab cfg env.renderOk t
      (choosePdfName files t.title cfg.max_filename_length) =
      snapLoop cfg env.renderOk t (choosePdfName files t.title cfg.max_filename_length) 0
        cfg.max_retries := by
    unfold snapAndCloseTab
    rw [if_neg (by rw [hurl]; simp)]
  refine ⟨?_, ?_, ?_, ?_⟩
  · rw [hsnap]
    exact snapLoop_renderCount cfg env t _ cfg.max_retries 0
  · rw [hsnap]
    have := snapLoop_false_iff cfg env t
      (choosePdfName files t.title cfg.max_filename_length) cfg.max_retries 0
    simpa using this
  · rw [hsnap]
    intro h
    exact snapLoop_sleepCount cfg env t _ cfg.max_retries 0 h
  · intro h
    rw [processLoop]
    rw [if_neg (by rw [hurl, hint]; simp)]
    simp only [hh]
    rw [if_neg hlv]
    simp only [hdry]
    rw [if_neg (by simp : ¬ false = true)]
    rw [if_neg (by rw [h]; simp)]

/-- C8 witness: the bounded-retry theorem applied to a concrete qualifying
tab in the concrete non-dry environment. -/
theorem render_retry_bounded_witness :
    cfgWet.dry_run = false ∧ tabA.url.isEmpty = false ∧
    isInternalUrl tabA.url = false ∧ envTwo.history tabA.url = some 0 ∧
    ¬ (0 : Int) < 0 ∧
    (renderCount (snapAndCloseTab cfgWet envTwo.renderOk tabA
        (choosePdfName [] tabA.title cfgWet.max_filename_length)).2 ≤
        cfgWet.max_retries ∧
      ((snapAndCloseTab cfgWet envTwo.renderOk tabA
          (choosePdfName [] tabA.title cfgWet.max_filename_length)).1 = false ↔
        ∀ i < cfgWet.max_retries, envTwo.renderOk tabA i = false) ∧
      ((snapAndCloseTab cfgWet envTwo.renderOk tabA
          (choosePdfName [] tabA.title cfgWet.max_filename_length)).1 = false →
        sleepCount (snapAndCloseTab cfgWet envTwo.renderOk tabA
          (choosePdfName [] tabA.title cfgWet.max_filename_length)).2 =
          cfgWet.max_retries - 1) ∧
      ((snapAndCloseTab cfgWet envTwo.renderOk tabA
          (choosePdfName [] tabA.title cfgWet.max_filename_length)).1 = false →
        processLoop cfgWet envTwo.history envTwo.renderOk 0 [tabA] [] =
          ((processLoop cfgWet envTwo.history envTwo.renderOk 0 [] []).1,
           (processLoop cfgWet envTwo.history envTwo.renderOk 0 [] []).2.1,
           (snapAndCloseTab cfgWet envTwo.renderOk tabA
              (choosePdfName [] tabA.title cfgWet.max_filename_length)).2 ++
             (processLoop cfgWet envTwo.history envTwo.renderOk 0 [] []).2.2))) :=
  ⟨rfl, by decide, by decide, rfl, by omega,
   render_retry_bounded cfgWet envTwo tabA [] [] 0 0 rfl (by decide) (by decide) rfl
     (by omega)⟩

/-! ## Claim C9 -/

theorem mem_rowsOf : ∀ (evs : List Event) (r : Row),
    Event.appendRow r ∈ evs → r ∈ rowsOf evs
  | e :: rest, r, h => by
    rcases List.mem_cons.mp h with h1 | h1
    · rw [← h1]
      simp [rowsOf]
    · have := mem_rowsOf rest r h1
      cases e <;> simp [rowsOf, this]

theorem renderAttempt_not_mem_closeEvents (cfg : Config) (t t' : Tab) (a : Nat) :
    Event.renderAttempt t' a ∉ closeEvents cfg t := by
  unfold closeEvents
  by_cases hd : cfg.dry_run = true
  · rw [if_pos hd]
    simp
  · rw [if_neg hd]
    cases t.id with
    | none => simp
    | some i =>
      dsimp only
      by_cases hi : i.isEmpty = true
      · rw [if_pos hi]
        simp
      · rw [if_neg hi]
        simp

theorem snapLoop_render_tab (cfg : Config) (env : Env) (t : Tab) (name : List Char) :
    ∀ (fuel a0 : Nat) (t' : Tab) (a : Nat),
    Event.renderAttempt t' a ∈ (snapLoop cfg env.renderOk t name a0 fuel).2 → t' = t
  | 0, a0, t', a, h => by
    rw [snapLoop] at h
    simp at h
  | fuel + 1, a0, t', a, h => by
    rw [snapLoop] at h
    by_cases hr : env.renderOk t a0 = true
    · rw [if_pos hr] at h
      dsimp only at h
      rcases List.mem_cons.mp h with h1 | h1
      · injection h1
      · rcases List.mem_cons.mp h1 with h2 | h2
        · exact absurd h2 (by simp)
        · exact absurd h2 (renderAttempt_not_mem_closeEvents cfg t t' a)
    · rw [if_neg hr] at h
      dsimp only at h
      rcases List.mem_cons.mp h with h1 | h1
      · injection h1
      · rcases List.mem_append.mp h1 with h2 | h2
        · by_cases hz : fuel = 0
          · rw [if_pos hz] at h2
            simp at h2
          · rw [if_neg hz] at h2
            simp at h2
        · exact snapLoop_render_tab cfg env t name fuel (a0 + 1) t' a h2

theorem snapAndClose_render_tab (cfg : Config) (env : Env) (t : Tab)
    (name : List Char) (t' : Tab) (a : Nat)
    (h : Event.renderAttempt t' a ∈ (snapAndCloseTab cfg env.renderOk t name).2) : t' = t := by
  unfold snapAndCloseTab at h
  by_cases hu : t.url.isEmpty = true
  · rw [if_pos hu] at h
    simp at h
  · rw [if_neg hu] at h
    exact snapLoop_render_tab cfg env t name cfg.max_retries 0 t' a h

/-- Provenance: a render attempt or an index row in the per-tab loop's trace
belongs to a listed tab that passed the URL checks. -/
theorem processLoop_provenance (cfg : Config) (env : Env) (cutoff : Int) :
    ∀ (tabs : List Tab) (files : List (List Char)) (t' : Tab),
    ((∃ a, Event.renderAttempt t' a ∈ (processLoop cfg env.history env.renderOk cutoff tabs files).2.2) ∨
      (∃ r, r ∈ rowsOf (processLoop cfg env.history env.renderOk cutoff tabs files).2.2 ∧ r.tab = t')) →
    t' ∈ tabs ∧ (t'.url.isEmpty || isInternalUrl t'.url) = false
  | [], files, t', h => by
    rw [processLoop] at h
    rcases h with ⟨a, ha⟩ | ⟨r, hr, -⟩
    · simp at ha
    · simp [rowsOf] at hr
  | t :: rest, files, t', h => by
    rw [processLoop] at h
    by_cases hg : (t.url.isEmpty || isInternalUrl t.url) = true
    · rw [if_pos hg] at h
      have := processLoop_provenance cfg env cutoff rest files t' h
      exact ⟨List.mem_cons_of_mem t this.1, this.2⟩
    · rw [if_neg hg] at h
      have hg' : (t.url.isEmpty || isInternalUrl t.url) = false := by
        cases hgg : (t.url.isEmpty || isInternalUrl t.url)
        · rfl
        · exact absurd hgg hg
      cases hh : env.history t.url with
      | none =>
        rw [hh] at h
        have := processLoop_provenance cfg env cutoff rest files t' h
        exact ⟨List.mem_cons_of_mem t this.1, this.2⟩
      | some lv =>
        rw [hh] at h
        dsimp only at h
        by_cases hc : cutoff < lv
        · rw [if_pos hc] at h
          have := processLoop_provenance cfg env cutoff rest files t' h
          exact ⟨List.mem_cons_of_mem t this.1, this.2⟩
        · rw [if_neg hc] at h
          by_cases hd : cfg.dry_run = true
          · rw [if_pos hd] at h
            have := processLoop_provenance cfg env cutoff rest files t' h
            exact ⟨List.mem_cons_of_mem t this.1, this.2⟩
          · rw [if_neg hd] at h
            set p := choosePdfName files t.title cfg.max_filename_length with hp
            by_cases hs : (snapAndCloseTab cfg env.renderOk t p).1 = true
            · rw [if_pos hs] at h
              dsimp only at h
              rcases h with ⟨a, ha⟩ | ⟨r, hr, hrt⟩
              · rcases List.mem_append.mp ha with h1 | h1
                · have := snapAndClose_render_tab cfg env t p t' a h1
                  subst this
                  exact ⟨List.mem_cons_self _ _, hg'⟩
                · rcases List.mem_cons.mp h1 with h2 | h2
                  · exact absurd h2 (by simp)
                  · rcases List.mem_cons.mp h2 with h3 | h3
                    · exact absurd h3 (by simp)
                    · have := processLoop_provenance cfg env cutoff rest (p :: files) t'
                        (Or.inl ⟨a, h3⟩)
                      exact ⟨List.mem_cons_of_mem t this.1, this.2⟩
              · rw [rowsOf_append, (snapAndClose_rows_pdfs cfg env t p).2] at hr
                rw [List.nil_append] at hr
                simp only [rowsOf] at hr
                rcases List.mem_cons.mp hr with h1 | h1
                · rw [h1] at hrt
                  rw [← hrt]
                  exact ⟨List.mem_cons_self _ _, hg'⟩
                · have := processLoop_provenance cfg env cutoff rest (p :: files) t'
                    (Or.inr ⟨r, h1, hrt⟩)
                  exact ⟨List.mem_cons_of_mem t this.1, this.2⟩
            · rw [if_neg hs] at h
              dsimp only at h
              rcases h with ⟨a, ha⟩ | ⟨r, hr, hrt⟩
              · rcases List.mem_append.mp ha with h1 | h1
                · have := snapAndClose_render_tab cfg env t p t' a h1
                  subst this
                  exact ⟨List.mem_cons_self _ _, hg'⟩
                · have := processLoop_provenance cfg env cutoff rest files t'
                    (Or.inl ⟨a, h1⟩)
                  exact ⟨List.mem_cons_of_mem t this.1, this.2⟩
              · rw [rowsOf_append, (snapAndClose_rows_pdfs cfg env t p).2] at hr
                rw [List.nil_append] at hr
                have := processLoop_provenance cfg env cutoff rest files t'
                  (Or.inr ⟨r, hr, hrt⟩)
                exact ⟨List.mem_cons_of_mem t this.1, this.2⟩

/-- Erasure: a tab that fails the URL checks can be removed from the loop's
input without changing anything. -/
theorem processLoop_skip_middle (cfg : Config) (env : Env) (cutoff : Int) (t : Tab)
    (hbad : (t.url.isEmpty || isInternalUrl t.url) = true) :
    ∀ (A B : List Tab) (files : List (List Char)),
    processLoop cfg env.history env.renderOk cutoff (A ++ t :: B) files =
      processLoop cfg env.history env.renderOk cutoff (A ++ B) files
  | [], B, files => by
    rw [List.nil_append, List.nil_append, processLoop, if_pos hbad]
  | a :: A, B, files => by
    rw [List.cons_append, List.cons_append, processLoop, processLoop]
    by_cases hg : (a.url.isEmpty || isInternalUrl a.url) = true
    · rw [if_pos hg, if_pos hg]
      exact processLoop_skip_middle cfg env cutoff t hbad A B files
    · rw [if_neg hg, if_neg hg]
      cases hh : env.history a.url with
      | none => exact processLoop_skip_middle cfg env cutoff t hbad A B files
      | some lv =>
        dsimp only
        by_cases hc : cutoff < lv
        · rw [if_pos hc, if_pos hc]
          exact processLoop_skip_middle cfg env cutoff t hbad A B files
        · rw [if_neg hc, if_neg hc]
          by_cases hd : cfg.dry_run = true
          · rw [if_pos hd, if_pos hd]
            rw [processLoop_skip_middle cfg env cutoff t hbad A B files]
          · rw [if_neg hd, if_neg hd]
            by_cases hs : (snapAndCloseTab cfg env.renderOk a
                (choosePdfName files a.title cfg.max_filename_length)).1 = true
            · rw [if_pos hs, if_pos hs]
              rw [processLoop_skip_middle cfg env cutoff t hbad A B
                (choosePdfName files a.title cfg.max_filename_length :: files)]
            · rw [if_neg hs, if_neg hs]
              rw [processLoop_skip_middle cfg env cutoff t hbad A B files]

/-- Provenance lifted to a whole run: any rendered or indexed tab is a listed
page tab that passed the URL checks. -/
theorem processTabs_provenance (cfg : Config) (env : Env) (t' : Tab)
    (h : (∃ a, Event.renderAttempt t' a ∈ (processTabs cfg env).2) ∨
      (∃ r, r ∈ rowsOf (processTabs cfg env).2 ∧ r.tab = t')) :
    t' ∈ (getOpenTabs env).filter (fun tb => decide (tb.ty = some pageType)) ∧
    (t'.url.isEmpty || isInternalUrl t'.url) = false := by
  rw [processTabs] at h
  by_cases hh : env.historyExists = false
  · rw [if_pos hh] at h
    rcases h with ⟨a, ha⟩ | ⟨r, hr, -⟩
    · simp at ha
    · simp [rowsOf] at hr
  · rw [if_neg hh] at h
    by_cases hempty : (getOpenTabs env).isEmpty = true
    · rw [if_pos hempty] at h
      rcases h with ⟨a, ha⟩ | ⟨r, hr, -⟩
      · by_cases hd : cfg.dry_run = true <;> simp [hd] at ha
      · by_cases hd : cfg.dry_run = true <;> simp [hd, rowsOf] at hr
    · rw [if_neg hempty] at h
      by_cases hcopy : env.copyOk = false
      · rw [if_pos hcopy] at h
        rcases h with ⟨a, ha⟩ | ⟨r, hr, -⟩
        · by_cases hd : cfg.dry_run = true <;> simp [hd] at ha
        · by_cases hd : cfg.dry_run = true <;> simp [hd, rowsOf] at hr
      · rw [if_neg hcopy] at h
        dsimp only at h
        refine processLoop_provenance cfg env (env.now - cfg.days_idle) _
          env.initialFiles t' ?_
        rcases h with ⟨a, ha⟩ | ⟨r, hr, hrt⟩
        · refine Or.inl ⟨a, ?_⟩
          rcases List.mem_append.mp ha with h1 | h1
          · by_cases hd : cfg.dry_run = true <;> simp [hd] at h1
          · rcases List.mem_cons.mp h1 with h2 | h2
            · exact absurd h2 (by simp)
            · rcases List.mem_append.mp h2 with h3 | h3
              · exact h3
              · simp at h3
        · refine Or.inr ⟨r, ?_, hrt⟩
          rw [rowsOf_append] at hr
          have hdir : rowsOf (if cfg.dry_run = true then [] else [Event.mkDayDir]) = [] := by
            by_cases hd : cfg.dry_run = true <;> simp [hd, rowsOf]
          rw [hdir, List.nil_append] at hr
          simp only [rowsOf] at hr
          rw [rowsOf_append] at hr
          have hdel : rowsOf [Event.deleteTmp] = [] := rfl
          rw [hdel, List.append_nil] at hr
          exact hr

/-- C9: a listed tab whose type is not "page", or whose URL is empty or
browser-internal, is never rendered, never receives an index row, and is
never counted as processed: no render attempt or row event mentions it, and
erasing it from the fetched tab list leaves the processed count unchanged. -/
theorem nonpage_or_internal_untouched (cfg : Config) (env : Env) (t : Tab)
    (l1 l2 : List Tab)
    (hf : env.fetchResult = some (l1 ++ t :: l2))
    (hbad : t.ty ≠ some pageType ∨ t.url.isEmpty = true ∨ isInternalUrl t.url = true) :
    (∀ a, Event.renderAttempt t a ∉ (processTabs cfg env).2) ∧
    (∀ n, Event.appendRow ⟨t, n⟩ ∉ (processTabs cfg env).2) ∧
    (processTabs cfg env).1.1 =
      (processTabs cfg ⟨env.historyExists, env.now, some (l1 ++ l2), env.copyOk,
        env.history, env.renderOk, env.initialFiles⟩).1.1 := by
  have hcontra : ∀ h : t ∈ (getOpenTabs env).filter
      (fun tb => decide (tb.ty = some pageType)),
      (t.url.isEmpty || isInternalUrl t.url) = false → False := by
    intro hmem hguard
    have hty : t.ty = some pageType := by
      have := (List.mem_filter.mp hmem).2
      simpa using this
    rcases hbad with h | h | h
    · exact h hty
    · rw [h] at hguard
      simp at hguard
    · rw [h] at hguard
      simp at hguard
  refine ⟨?_, ?_, ?_⟩
  · intro a ha
    have := processTabs_provenance cfg env t (Or.inl ⟨a, ha⟩)
    exact hcontra this.1 this.2
  · intro n hn
    have hrow := mem_rowsOf _ ⟨t, n⟩ hn
    have := processTabs_provenance cfg env t (Or.inr ⟨⟨t, n⟩, hrow, rfl⟩)
    exact hcontra this.1 this.2
  · have htabs : getOpenTabs env = l1 ++ t :: l2 := by rw [getOpenTabs, hf]
    have hnotempty : (l1 ++ t :: l2).isEmpty = false := by
      cases l1 <;> rfl
    have hget2 : getOpenTabs ⟨env.historyExists, env.now, some (l1 ++ l2), env.copyOk,
        env.history, env.renderOk, env.initialFiles⟩ = l1 ++ l2 := rfl
    rw [processTabs_unfold, processTabs_unfold]
    dsimp only
    rw [htabs, hget2]
    by_cases hh : env.historyExists = false
    · rw [if_pos hh, if_pos hh]
    · rw [if_neg hh, if_neg hh, hnotempty]
      rw [if_neg (by simp : ¬ false = true)]
      by_cases hl : (l1 ++ l2).isEmpty = true
      · rw [if_pos hl]
        have hl' : l1 ++ l2 = [] := by
          cases hll : l1 ++ l2
          · rfl
          · rw [hll] at hl
            simp at hl
        have hl1 : l1 = [] := by
          cases l1 with
          | nil => rfl
          | cons x xs => simp at hl'
        have hl2 : l2 = [] := by
          rw [hl1] at hl'
          simpa using hl'
        subst hl1
        subst hl2
        dsimp only [List.nil_append]
        by_cases hcopy : env.copyOk = false
        · rw [if_pos hcopy]
        · rw [if_neg hcopy]
          by_cases hp : t.ty = some pageType
          · have hguard : (t.url.isEmpty || isInternalUrl t.url) = true := by
              rcases hbad with h | h | h
              · exact absurd hp h
              · rw [h]
                rfl
              · rw [h]
                simp
            rw [List.filter_cons_of_pos (by simpa using hp), List.filter_nil]
            rw [processLoop, if_pos hguard, processLoop]
          · rw [List.filter_cons_of_neg (by simpa using hp), List.filter_nil]
            rw [processLoop]
      · rw [if_neg hl]
        by_cases hcopy : env.copyOk = false
        · rw [if_pos hcopy, if_pos hcopy]
        · rw [if_neg hcopy, if_neg hcopy]
          by_cases hp : t.ty = some pageType
          · have hguard : (t.url.isEmpty || isInternalUrl t.url) = true := by
              rcases hbad with h | h | h
              · exact absurd hp h
              · rw [h]
                rfl
              · rw [h]
                simp
            rw [List.filter_append, List.filter_cons_of_pos (by simpa using hp),
              List.filter_append]
            rw [processLoop_skip_middle cfg env (env.now - cfg.days_idle) t hguard]
          · rw [List.filter_append, List.filter_cons_of_neg (by simpa using hp),
              List.filter_append]

/-- C9 witness: the theorem applied to a concrete run whose middle tab is an
internal `chrome://` tab. -/
theorem nonpage_or_internal_untouched_witness :
    (⟨true, 14, some ([tabA] ++ tabInternal :: [tabB]), true, fun _ => some 0,
        fun _ _ => true, []⟩ : Env).fetchResult
      = some ([tabA] ++ tabInternal :: [tabB]) ∧
    (tabInternal.ty ≠ some pageType ∨ tabInternal.url.isEmpty = true ∨
      isInternalUrl tabInternal.url = true) ∧
    ((∀ a, Event.renderAttempt tabInternal a ∉
        (processTabs cfgWet ⟨true, 14, some ([tabA] ++ tabInternal :: [tabB]), true,
          fun _ => some 0, fun _ _ => true, []⟩).2) ∧
      (∀ n, Event.appendRow ⟨tabInternal, n⟩ ∉
        (processTabs cfgWet ⟨true, 14, some ([tabA] ++ tabInternal :: [tabB]), true,
          fun _ => some 0, fun _ _ => true, []⟩).2) ∧
      (processTabs cfgWet ⟨true, 14, some ([tabA] ++ tabInternal :: [tabB]), true,
          fun _ => some 0, fun _ _ => true, []⟩).1.1 =
        (processTabs cfgWet ⟨true, 14, some ([tabA] ++ [tabB]), true,
          fun _ => some 0, fun _ _ => true, []⟩).1.1) :=
  ⟨rfl, by right; right; decide,
   nonpage_or_internal_untouched cfgWet
     ⟨true, 14, some ([tabA] ++ tabInternal :: [tabB]), true, fun _ => some 0,
       fun _ _ => true, []⟩
     tabInternal [tabA] [tabB] rfl (by right; right; decide)⟩

/-! ## Claim C5 -/

/-- The invariant threaded through the archived rows of one run: relative to
the day-directory contents `files` at the time a row's tab was handled, the
row's pdf name is fresh, afterwards the base name for its title is present,
and a pre-existing base name forces a numeric suffix. -/
def RowsOk (cfg : Config) : List (List Char) → List Row → Prop
  | _, [] => True
  | files, r :: rs =>
    r.pdfName ∉ files ∧
    baseName r.tab.title cfg.max_filename_length ∈ r.pdfName :: files ∧
    (baseName r.tab.title cfg.max_filename_length ∈ files →
      ∃ n, 1 ≤ n ∧
        r.pdfName = suffixName (safe_filename r.tab.title (cfg.max_filename_length - 10)) n) ∧
    RowsOk cfg (r.pdfName :: files) rs

/-- The per-tab loop maintains `RowsOk`. -/
theorem processLoop_rowsOk (cfg : Config) (env : Env) (cutoff : Int) :
    ∀ (tabs : List Tab) (files : List (List Char)),
    RowsOk cfg files
      (rowsOf (processLoop cfg env.history env.renderOk cutoff tabs files).2.2)
  | [], files => by
    rw [processLoop]
    exact trivial
  | t :: rest, files => by
    rw [processLoop]
    by_cases hg : (t.url.isEmpty || isInternalUrl t.url) = true
    · rw [if_pos hg]
      exact processLoop_rowsOk cfg env cutoff rest files
    · rw [if_neg hg]
      cases hh : env.history t.url with
      | none => exact processLoop_rowsOk cfg env cutoff rest files
      | some lv =>
        dsimp only
        by_cases hc : cutoff < lv
        · rw [if_pos hc]
          exact processLoop_rowsOk cfg env cutoff rest files
        · rw [if_neg hc]
          by_cases hd : cfg.dry_run = true
          · rw [if_pos hd]
            exact processLoop_rowsOk cfg env cutoff rest files
          · rw [if_neg hd]
            set p := choosePdfName files t.title cfg.max_filename_length with hp
            by_cases hs : (snapAndCloseTab cfg env.renderOk t p).1 = true
            · rw [if_pos hs]
              dsimp only
              rw [rowsOf_append, (snapAndClose_rows_pdfs cfg env t p).2, List.nil_append]
              simp only [rowsOf]
              refine ⟨?_, ?_, ?_, ?_⟩
              · rw [hp]
                exact choosePdfName_not_mem files t.title cfg.max_filename_length
              · rw [hp]
                exact baseName_mem_after files t.title cfg.max_filename_length
              · intro hb
                rw [hp]
                exact choosePdfName_suffix files t.title cfg.max_filename_length hb
              · exact processLoop_rowsOk cfg env cutoff rest (p :: files)
            · rw [if_neg hs]
              dsimp only
              rw [rowsOf_append, (snapAndClose_rows_pdfs cfg env t p).2, List.nil_append]
              exact processLoop_rowsOk cfg env cutoff rest files

/-- Rows deeper in a `RowsOk` list stay fresh with respect to the earlier
file state, and a present base name forces the suffix form. -/
theorem rowsOk_mem (cfg : Config) :
    ∀ (rs : List Row) (files : List (List Char)) (r : Row),
    RowsOk cfg files rs → r ∈ rs →
    r.pdfName ∉ files ∧
    (baseName r.tab.title cfg.max_filename_length ∈ files →
      ∃ n, 1 ≤ n ∧
        r.pdfName = suffixName (safe_filename r.tab.title (cfg.max_filename_length - 10)) n)
  | [], files, r, _, hr => absurd hr (List.not_mem_nil r)
  | r0 :: rs, files, r, hOk, hr => by
    rcases List.mem_cons.mp hr with h1 | h1
    · subst h1
      exact ⟨hOk.1, hOk.2.2.1⟩
    · have := rowsOk_mem cfg rs (r0.pdfName :: files) r hOk.2.2.2 h1
      refine ⟨fun hmem => this.1 (List.mem_cons_of_mem _ hmem), fun hb => ?_⟩
      exact this.2 (List.mem_cons_of_mem _ hb)

/-- Two ordered rows with the same sanitized title, inside a `RowsOk` list:
distinct names, and the later one carries a numeric suffix. -/
theorem rowsOk_pair (cfg : Config) :
    ∀ (rs : List Row) (files : List (List Char)) (r1 r2 : Row),
    RowsOk cfg files rs → List.Sublist [r1, r2] rs →
    safe_filename r1.tab.title cfg.max_filename_length =
      safe_filename r2.tab.title cfg.max_filename_length →
    r1.pdfName ≠ r2.pdfName ∧
    ∃ n, 1 ≤ n ∧
      r2.pdfName = suffixName (safe_filename r2.tab.title (cfg.max_filename_length - 10)) n
  | [], _, r1, r2, _, hsub, _ => by
    exact absurd (hsub.subset (by simp)) (List.not_mem_nil r1)
  | r0 :: rs, files, r1, r2, hOk, hsub, hsame => by
    cases hsub with
    | cons _ htail =>
      exact rowsOk_pair cfg rs (r0.pdfName :: files) r1 r2 hOk.2.2.2 htail hsame
    | cons₂ _ htail =>
      have hr2 : r2 ∈ rs := htail.subset (by simp)
      have hbase : baseName r2.tab.title cfg.max_filename_length ∈
          r0.pdfName :: files := by
        have h1 := hOk.2.1
        unfold baseName at h1 ⊢
        rw [← hsame]
        exact h1
      have hmem := rowsOk_mem cfg rs (r0.pdfName :: files) r2 hOk.2.2.2 hr2
      refine ⟨?_, hmem.2 hbase⟩
      intro heq
      exact hmem.1 (by rw [← heq]; exact List.mem_cons_self _ _)

/-- A whole run maintains `RowsOk` relative to the initial day-directory
contents. -/
theorem processTabs_rowsOk (cfg : Config) (env : Env) :
    RowsOk cfg env.initialFiles (rowsOf (processTabs cfg env).2) := by
  rw [processTabs_unfold]
  by_cases hh : env.historyExists = false
  · rw [if_pos hh]
    exact trivial
  · rw [if_neg hh]
    by_cases hempty : (getOpenTabs env).isEmpty = true
    · rw [if_pos hempty]
      by_cases hd : cfg.dry_run = true <;> simp [hd, rowsOf] <;> exact trivial
    · rw [if_neg hempty]
      by_cases hcopy : env.copyOk = false
      · rw [if_pos hcopy]
        by_cases hd : cfg.dry_run = true <;> simp [hd, rowsOf] <;> exact trivial
      · rw [if_neg hcopy]
        dsimp only
        rw [rowsOf_append]
        have hdir : rowsOf (if cfg.dry_run = true then [] else [Event.mkDayDir]) = [] := by
          by_cases hd : cfg.dry_run = true <;> simp [hd, rowsOf]
        rw [hdir, List.nil_append]
        simp only [rowsOf]
        rw [rowsOf_append]
        have hdel : rowsOf [Event.deleteTmp] = [] := rfl
        rw [hdel, List.append_nil]
        exact processLoop_rowsOk cfg env (env.now - cfg.days_idle) _ env.initialFiles

/-- C5: in one non-dry run (one day directory), two archived tabs whose
titles sanitize to the same string receive two distinct PDF filenames, and
the later one carries a numeric collision suffix `_n` (n ≥ 1) on the
10-shorter stem.  The hypothesis `10 ≤ max_filename_length` keeps the `Nat`
model of `max_filename_length - 10` faithful to the script (which always
uses 80). -/
theorem same_title_distinct_names (cfg : Config) (env : Env) (r1 r2 : Row)
    (hdry : cfg.dry_run = false)
    (hlen : 10 ≤ cfg.max_filename_length)
    (hsub : List.Sublist [r1, r2] (rowsOf (processTabs cfg env).2))
    (hsame : safe_filename r1.tab.title cfg.max_filename_length =
      safe_filename r2.tab.title cfg.max_filename_length) :
    r1.pdfName ≠ r2.pdfName ∧
    ∃ n, 1 ≤ n ∧
      r2.pdfName = suffixName (safe_filename r2.tab.title (cfg.max_filename_length - 10)) n :=
  rowsOk_pair cfg (rowsOf (processTabs cfg env).2) env.initialFiles r1 r2
    (processTabs_rowsOk cfg env) hsub hsame

/-- C5 witness: the collision theorem applied to the concrete run archiving
two tabs titled "Same Title", which receive "Same Title.pdf" and
"Same Title_1.pdf". -/
theorem same_title_distinct_names_witness :
    cfgWet.dry_run = false ∧ 10 ≤ cfgWet.max_filename_length ∧
    List.Sublist [(⟨tabA, "Same Title.pdf".toList⟩ : Row),
        ⟨tabB, "Same Title_1.pdf".toList⟩] (rowsOf (processTabs cfgWet envTwo).2) ∧
    safe_filename tabA.title cfgWet.max_filename_length =
      safe_filename tabB.title cfgWet.max_filename_length ∧
    ((⟨tabA, "Same Title.pdf".toList⟩ : Row).pdfName ≠
        (⟨tabB, "Same Title_1.pdf".toList⟩ : Row).pdfName ∧
      ∃ n, 1 ≤ n ∧
        (⟨tabB, "Same Title_1.pdf".toList⟩ : Row).pdfName =
          suffixName (safe_filename tabB.title (cfgWet.max_filename_length - 10)) n) := by
  have hrows : rowsOf (processTabs cfgWet envTwo).2 =
      [⟨tabA, "Same Title.pdf".toList⟩, ⟨tabB, "Same Title_1.pdf".toList⟩] := by decide
  refine ⟨rfl, by decide, ?_, rfl, ?_⟩
  · rw [hrows]
  · exact same_title_distinct_names cfgWet envTwo _ _ rfl (by decide)
      (by rw [hrows]) rfl

end TabArchiver
